import Mathlib

/-!
Verification development for the outcome-voice-agent repository.

The JavaScript sources are shallowly embedded: strings are `List Char`,
JS objects relevant to the claims become structures and inductives, the
`while` loops of the agent tool-calling code become structurally
recursive functions on an explicit fuel that mirrors the
`iterations < maxIterations` guard, and every external collaborator
(the LLM "responses.create" boundary, the tool executor, the data
providers) is an explicit argument so that a theorem quantifying over it
covers every behaviour of the collaborator.
-/

namespace OVA

/-! ## JS string primitives (String.prototype.trim, toLowerCase,
startsWith, includes, lastIndexOf(' '), and decimal rendering of
numbers as used by template literals). -/

/-- Whitespace as stripped by `String.prototype.trim` (the code only ever
meets spaces, newlines, tabs and carriage returns). -/
def isJsWs (c : Char) : Bool :=
  c == ' ' || c == '\n' || c == '\t' || c == '\r'

/-- `s.trim()`. -/
def jsTrim (s : List Char) : List Char :=
  ((s.dropWhile isJsWs).reverse.dropWhile isJsWs).reverse

/-- `s.toLowerCase()`. -/
def toLowerList (s : List Char) : List Char :=
  s.map Char.toLower

/-- `s.startsWith(p)` (first argument the string, second the pattern). -/
def leadsWith : List Char → List Char → Bool
  | _, [] => true
  | [], _ :: _ => false
  | c :: t, p :: ps => c == p && leadsWith t ps

/-- `s.includes(p)` (substring containment). -/
def containsSub : List Char → List Char → Bool
  | [], p => p.isEmpty
  | c :: t, p => leadsWith (c :: t) p || containsSub t p

/-- Index of the last space of a list, `s.lastIndexOf(' ')`; `none`
plays the role of the JS result `-1`. -/
def lastSpaceIdx : List Char → Option Nat
  | [] => none
  | c :: t =>
    match lastSpaceIdx t with
    | some i => some (i + 1)
    | none => if c == ' ' then some 0 else none

/-- One decimal digit as a character. -/
def digitChar : Nat → Char
  | 0 => '0' | 1 => '1' | 2 => '2' | 3 => '3' | 4 => '4'
  | 5 => '5' | 6 => '6' | 7 => '7' | 8 => '8' | _ => '9'

/-- Numeric value of a decimal digit character. -/
def charVal (c : Char) : Nat :=
  if c = '0' then 0 else if c = '1' then 1 else if c = '2' then 2
  else if c = '3' then 3 else if c = '4' then 4 else if c = '5' then 5
  else if c = '6' then 6 else if c = '7' then 7 else if c = '8' then 8
  else 9

/-- Decimal rendering of a natural number (big-endian digit list); the
fuel argument only drives structural recursion and is always adequate at
the call site in `natChars`. -/
def natCharsCore : Nat → Nat → List Char
  | 0, _ => []
  | fuel + 1, n =>
    if n < 10 then [digitChar n]
    else natCharsCore fuel (n / 10) ++ [digitChar (n % 10)]

/-- Decimal rendering of a natural number, as a JS template literal
renders `Date.now()` or an array length. -/
def natChars (n : Nat) : List Char := natCharsCore (n + 1) n

/-- Value of a big-endian decimal digit list. -/
def decVal (l : List Char) : Nat :=
  l.foldl (fun a c => a * 10 + charVal c) 0

/-! ## src/utils/sms.js: chunkMessage

`chunkMessage(message, maxLength = 300)`; every caller uses the default
`maxLength = 300`, which is inlined below. -/

/-- The split-point computation of one iteration of the `while` loop of
`chunkMessage`: `maxLength`, moved back to the last space of the first
300 characters when the remainder is over the limit and such a space
exists at a positive index, or the whole remainder when it fits. -/
def chunkSplitPoint (remaining : List Char) : Nat :=
  if 300 < remaining.length then
    match lastSpaceIdx (remaining.take 300) with
    | some i => if 0 < i then i else 300
    | none => 300
  else remaining.length

/-- The `while (remaining.length > 0)` loop of `chunkMessage`. The fuel
starts at the length of the message; each pass removes at least one
character, so the fuel never runs out before the remainder is empty. -/
def chunkLoopCore : Nat → List Char → List (List Char)
  | 0, _ => []
  | fuel + 1, remaining =>
    if remaining = [] then []
    else
      let sp := chunkSplitPoint remaining
      jsTrim (remaining.take sp) :: chunkLoopCore fuel (jsTrim (remaining.drop sp))

/-- The chunk list before part numbers are added: `[message]` when the
message fits in 300 characters, otherwise the loop output. -/
def chunkContents (message : List Char) : List (List Char) :=
  if message.length ≤ 300 then [message]
  else chunkLoopCore message.length message

/-- The `(${i + 1}/${chunks.length}) ` part marker. -/
def chunkMarker (i n : Nat) : List Char :=
  ('(' :: natChars i) ++ ('/' :: natChars n) ++ [')', ' ']

/-- `chunks.map((chunk, i) => ...)`: prepend the part marker of index
`i` (1-based here) out of `total` to every chunk. -/
def addChunkMarkers (total : Nat) : Nat → List (List Char) → List (List Char)
  | _, [] => []
  | i, c :: rest => (chunkMarker i total ++ c) :: addChunkMarkers total (i + 1) rest

/-- `chunkMessage(message)` from src/utils/sms.js. -/
def chunkMessage (message : List Char) : List (List Char) :=
  let chunks := chunkContents message
  if 1 < chunks.length then addChunkMarkers chunks.length 1 chunks
  else chunks

/-! ## Tool results and the finalization step of the specialist loops

A `lastToolResult` in the JS code is either a plain string or an object.
Of an object result the finalization code reads `message`, `data`,
`outcome` and `tables`; `serialized` carries the value of
`JSON.stringify(lastToolResult)` abstractly (the fields the code never
reads are not modelled).  An empty list models both an absent field and
an empty string: both are falsy in the JS truthiness tests. -/

structure ToolObj where
  message : List Char
  data : Option (List Char)
  outcome : List Char
  tables : List (List Char)
  serialized : List Char
deriving DecidableEq

inductive ToolResult where
  | str (s : List Char)
  | obj (o : ToolObj)
deriving DecidableEq

/-- Generic summary of the base SubAgent when the tool result is too
long to forward (base-agent.js line 446). -/
def foundDataMsg : List Char :=
  ("I found the data you requested. The analysis shows multiple records with varying performance metrics. Please be more specific about which aspects you\x27d like me to analyze.").toList

/-- Final apology of the base SubAgent (base-agent.js line 453). -/
def baseApology : List Char :=
  ("I apologize, but I couldn\x27t generate a response. Please try again.").toList

/-- Finalization of `SubAgent.process` (base-agent.js lines 423-454),
applied to the text already extracted from the last response and to
`lastToolResult`. -/
def finalizeBase (extracted : List Char) (last : Option ToolResult) : List Char :=
  let t :=
    if extracted = [] then
      match last with
      | none => []
      | some (.str s) => if s.length < 500 then s.take 500 else foundDataMsg
      | some (.obj o) =>
        if o.message ≠ [] ∧ o.message.length < 500 then o.message else foundDataMsg
    else extracted
  if t = [] then baseApology else t

/-- Lead-in of the raw-details reply of the real-estate specialist
(real-estate agent, `handleToolCalls` line 171). -/
def reDetailsIntro : List Char :=
  ("I retrieved the property information successfully. Here are the details: ").toList

/-- Final apology of the real-estate specialist. -/
def reNoResponseApology : List Char :=
  ("I apologize, but I couldn\x27t generate a response about the property. Please try again.").toList

/-- Apology the real-estate specialist returns when a tool execution
throws (its `catch` block, lines 140-148). -/
def reErrorApology : List Char :=
  ("I apologize, but I encountered an error processing your property request. Please try again.").toList

/-- Finalization of `RealEstateAgent.handleToolCalls` (lines 152-178):
a string result is used whole with no length ceiling, a truthy `message`
field is used whole, and otherwise the raw `JSON.stringify` of the
result is appended to a lead-in. -/
def finalizeRealEstate (extracted : List Char) (last : Option ToolResult) : List Char :=
  let t :=
    if extracted = [] then
      match last with
      | none => []
      | some (.str s) => s
      | some (.obj o) =>
        if o.message ≠ [] then o.message else reDetailsIntro ++ o.serialized
    else extracted
  if t = [] then reNoResponseApology else t

/-- Apology the business specialist returns when a tool execution throws
(its `catch` block, lines 362-370). -/
def bizErrorApology : List Char :=
  ("I apologize, but I encountered an error processing your request. Please try again.").toList

/-- Generic fallback of the business specialist (line 414). -/
def bizGenericMsg : List Char :=
  ("I successfully retrieved the data from your workspace. The query returned results, but I need more specific instructions on what analysis or insights you need from this data.").toList

/-- Summary built by the business specialist from an `outcome`-shaped
tool result (lines 401-411). -/
def bizOutcomeSummary (o : ToolObj) : List Char :=
  let t := ("I found data from your ").toList ++ o.outcome ++ (" outcome. ").toList
  let t :=
    if o.tables ≠ [] then
      t ++ ("The data includes ").toList ++ joinCommaSep o.tables ++ (". ").toList
    else t
  match o.data with
  | some d =>
    if d ≠ [] then t ++ ('\n' :: '\n' :: d)
    else t ++ ("Please let me know what specific analysis you need.").toList
  | none => t ++ ("Please let me know what specific analysis you need.").toList
where
  joinCommaSep : List (List Char) → List Char
    | [] => []
    | [l] => l
    | l :: rest => l ++ (',' :: ' ' :: joinCommaSep rest)

/-- Finalization of `BusinessAgent.handleToolCalls` (lines 380-421). -/
def finalizeBusiness (extracted : List Char) (last : Option ToolResult) : List Char :=
  let t :=
    if extracted = [] then
      match last with
      | none => []
      | some (.str s) => s
      | some (.obj o) =>
        if o.message ≠ [] then o.message
        else
          match o.data with
          | some d => if d ≠ [] then d else bizTail o
          | none => bizTail o
    else extracted
  if t = [] then baseApology else t
where
  bizTail (o : ToolObj) : List Char :=
    if o.outcome ≠ [] then bizOutcomeSummary o else bizGenericMsg

/-! ## The GPT-5 Responses API result shape

A response carries the convenience `output_text` field and an `output`
array of items; a `function_call` item has a `name` and an `arguments`
JSON string, a `message` item has a `role` and content parts.  An
arguments string is abstracted by how `JSON.parse` treats it: it throws
(`malformed`), yields an object with no keys (`empty`) or yields a
non-empty object (`present`) — the only three conditions the loop code
distinguishes. -/

inductive ArgClass where
  | malformed | empty | present
deriving DecidableEq

inductive RespPart where
  | outputText (text : List Char)
  | textPart (text : List Char)
  | otherPart
deriving DecidableEq

inductive RespItem where
  | functionCall (name : List Char) (args : ArgClass)
  | message (role : List Char) (content : List RespPart)
  | other
deriving DecidableEq

structure AgentResponse where
  output_text : List Char
  output : List RespItem
deriving DecidableEq

structure ToolCall where
  name : List Char
  args : ArgClass
deriving DecidableEq

/-- `currentResponse.output?.filter(item => item.type === 'function_call') || []`. -/
def functionCalls (r : AgentResponse) : List ToolCall :=
  r.output.filterMap fun
    | .functionCall n a => some ⟨n, a⟩
    | _ => none

/-- Text of a content part when its `type` is `output_text` or `text`. -/
def partText : RespPart → Option (List Char)
  | .outputText t => some t
  | .textPart t => some t
  | .otherPart => none

/-- The structured-output text scan shared by the three specialist
loops: message items, their qualifying parts, non-empty texts. -/
def collectTexts (items : List RespItem) : List (List Char) :=
  ((items.filterMap fun
    | .message _ ps => some ps
    | _ => none).flatten.filterMap partText).filter (fun t => t ≠ [])

/-- `parts.join('\n')`. -/
def joinNL : List (List Char) → List Char
  | [] => []
  | [l] => l
  | l :: rest => l ++ '\n' :: joinNL rest

/-- Final-text extraction shared by the three specialist loops: the
trimmed `output_text` if non-empty, else the trimmed join of the
assistant text parts of the output array. -/
def extractText (r : AgentResponse) : List Char :=
  let t := jsTrim r.output_text
  if t = [] then jsTrim (joinNL (collectTexts r.output)) else t

/-! ## The base SubAgent tool-calling loop (base-agent.js lines 274-421)

The model call `this.openai.responses.create(...)` is the environment
`env k disable`: the response to the `k`-th follow-up request, which is
told whether the request withdrew the tools (`shouldDisableTools`).
`toolExec name tick` is `await toolExecutor(name, args, userContext)` of
the `tick`-th actual tool execution of the run: `Except.error` models a
thrown exception.  `fallback name` tells whether
`extractFallbackParameters(name, userMessage)` produces a non-empty
parameter map — the only fact about the extracted arguments the loop
inspects.  Each tool execution is recorded in an instrumentation trace
that the theorems quantify over. -/

inductive AttemptRes where
  | success | failParse | failEmpty | failExec
deriving DecidableEq, Inhabited

/-- One attempted tool invocation: the tool name and how it went. -/
abbrev TraceEntry := List Char × AttemptRes

/-- `failedAttempts.get(name) || 0` over the Map modelled as an
association list. -/
def failedGet : List (List Char × Nat) → List Char → Nat
  | [], _ => 0
  | (m, c) :: t, n => if m = n then c else failedGet t n

/-- `failedAttempts.set(name, c)`. -/
def failedSet : List (List Char × Nat) → List Char → Nat → List (List Char × Nat)
  | [], n, c => [(n, c)]
  | (m, c0) :: t, n, c =>
    if m = n then (m, c) :: t else (m, c0) :: failedSet t n c

/-- Mutable state of one run of the base loop: `successfulTools`,
`failedAttempts` and `lastToolResult` (`allToolResults` only feeds the
follow-up prompt text, which the environment already abstracts). -/
structure LoopSt where
  successful : List (List Char)
  failed : List (List Char × Nat)
  lastResult : Option ToolResult
deriving DecidableEq

/-- Outcome of the `for (const functionCall of functionCalls)` body of
the base loop: either the list ran off with no execution (so
`toolsExecutedThisIteration` stayed false) or a tool executed
successfully and the `break` fired.  `delta` is the list of attempts
made, oldest first; `tick` counts actual `toolExecutor` invocations. -/
inductive InnerRes where
  | ranOff (st : LoopSt) (tick : Nat) (delta : List TraceEntry)
  | executed (st : LoopSt) (tick : Nat) (delta : List TraceEntry)
deriving DecidableEq

/-- Prepend an attempt to the trace of an inner-loop outcome. -/
def InnerRes.push (e : TraceEntry) : InnerRes → InnerRes
  | .ranOff st tick d => .ranOff st tick (e :: d)
  | .executed st tick d => .executed st tick (e :: d)

/-- The `for` loop over one response's function calls in
`SubAgent.process`: skip names that already succeeded, skip names that
failed twice, count a parse failure, run fallback extraction on empty
arguments, execute, catch. -/
def subInner (toolExec : List Char → Nat → Except Unit ToolResult)
    (fallback : List Char → Bool) :
    List ToolCall → LoopSt → Nat → InnerRes
  | [], st, tick => .ranOff st tick []
  | c :: rest, st, tick =>
    if c.name ∈ st.successful then subInner toolExec fallback rest st tick
    else
      let failedCount := failedGet st.failed c.name
      if 2 ≤ failedCount then subInner toolExec fallback rest st tick
      else
        let bumped : LoopSt := { st with failed := failedSet st.failed c.name (failedCount + 1) }
        match c.args with
        | .malformed =>
          (subInner toolExec fallback rest bumped tick).push (c.name, .failParse)
        | .empty =>
          if fallback c.name then
            match toolExec c.name tick with
            | .error _ =>
              (subInner toolExec fallback rest bumped (tick + 1)).push (c.name, .failExec)
            | .ok r =>
              .executed { st with successful := c.name :: st.successful, lastResult := some r }
                (tick + 1) [(c.name, .success)]
          else (subInner toolExec fallback rest bumped tick).push (c.name, .failEmpty)
        | .present =>
          match toolExec c.name tick with
          | .error _ =>
            (subInner toolExec fallback rest bumped (tick + 1)).push (c.name, .failExec)
          | .ok r =>
            .executed { st with successful := c.name :: st.successful, lastResult := some r }
              (tick + 1) [(c.name, .success)]

/-- `shouldDisableTools` of the base loop: user data fetched, two tools
succeeded, or the third iteration reached. -/
def subShouldDisable (st : LoopSt) (iterations : Nat) : Bool :=
  ("smart_data_query_sms").toList ∈ st.successful
    || 2 ≤ st.successful.length || 3 ≤ iterations

/-- Result of the base `while` loop: final response, final state, the
final value of the JS `iterations` counter, the attempt trace and the
execution count. -/
structure SubRun where
  finalResponse : AgentResponse
  st : LoopSt
  iterations : Nat
  trace : List TraceEntry
  tick : Nat
deriving DecidableEq

/-- The `while (iterations < maxIterations)` loop of `SubAgent.process`.
The fuel is `maxIterations - iterations`, so `fuel = 0` is exactly the
loop condition turning false; `k` numbers the follow-up model calls. -/
def subLoop (toolExec : List Char → Nat → Except Unit ToolResult)
    (fallback : List Char → Bool) (env : Nat → Bool → AgentResponse) :
    Nat → Nat → AgentResponse → LoopSt → Nat → Nat → SubRun
  | 0, iterations, cur, st, tick, _ => ⟨cur, st, iterations, [], tick⟩
  | fuel + 1, iterations, cur, st, tick, k =>
    let it := iterations + 1
    let calls := functionCalls cur
    if calls = [] then ⟨cur, st, it, [], tick⟩
    else
      match subInner toolExec fallback calls st tick with
      | .ranOff st' tick' d => ⟨cur, st', it, d, tick'⟩
      | .executed st' tick' d =>
        let rest := subLoop toolExec fallback env fuel it
          (env k (subShouldDisable st' it)) st' tick' (k + 1)
        { rest with trace := d ++ rest.trace }

/-- Reply of a whole specialist run. -/
structure AgentOut where
  content : List Char
  trace : List TraceEntry
  iterations : Nat
deriving DecidableEq

/-- `SubAgent.process` after the initial model call produced `initResp`:
run the loop with `maxIterations = 10`, then finalize. -/
def subAgentProcess (toolExec : List Char → Nat → Except Unit ToolResult)
    (fallback : List Char → Bool) (env : Nat → Bool → AgentResponse)
    (initResp : AgentResponse) : AgentOut :=
  let r := subLoop toolExec fallback env 10 0 initResp ⟨[], [], none⟩ 0 0
  ⟨finalizeBase (extractText r.finalResponse) r.st.lastResult, r.trace, r.iterations⟩

/-! ## The real-estate and business specialist loops
(`RealEstateAgent.handleToolCalls` lines 54-150 and
`BusinessAgent.handleToolCalls` lines 268-378)

Both specialists run the same `for` body: skip a name already in
`calledTools`, `JSON.parse` the arguments UNPROTECTED (a malformed
string throws out of `handleToolCalls`), execute, and on a thrown tool
execution return an apology immediately.  There is no failure ceiling
and no empty-arguments fallback.  They differ only in their `while`
loop: the business loop breaks when an iteration executed no new tool,
the real-estate loop has no such guard and re-scans the same response. -/

/-- Mutable state of one run of the two loops: `calledTools` and
`lastToolResult`. -/
structure DupSt where
  called : List (List Char)
  lastResult : Option ToolResult
deriving DecidableEq

/-- Outcome of the shared `for` body: ran off with only skips, executed
one tool and broke, returned the terminal apology from the `catch`, or
propagated a `JSON.parse` exception. -/
inductive DupInnerRes where
  | ranOff (st : DupSt) (tick : Nat)
  | executed (st : DupSt) (tick : Nat) (delta : List TraceEntry)
  | terminal (tick : Nat) (delta : List TraceEntry)
  | thrown (tick : Nat)
deriving DecidableEq

/-- The `for (const functionCall of functionCalls)` body shared by the
real-estate and business loops. -/
def dupInner (toolExec : List Char → Nat → Except Unit ToolResult) :
    List ToolCall → DupSt → Nat → DupInnerRes
  | [], st, tick => .ranOff st tick
  | c :: rest, st, tick =>
    if c.name ∈ st.called then dupInner toolExec rest st tick
    else
      match c.args with
      | .malformed => .thrown tick
      | _ =>
        match toolExec c.name tick with
        | .error _ => .terminal (tick + 1) [(c.name, .failExec)]
        | .ok r =>
          .executed { st with called := c.name :: st.called, lastResult := some r }
            (tick + 1) [(c.name, .success)]

/-- `shouldDisableTools` of the real-estate loop. -/
def reShouldDisable (st : DupSt) (iterations : Nat) : Bool :=
  ("smart_property_search_sms").toList ∈ st.called
    || 2 ≤ st.called.length || 2 ≤ iterations

/-- `shouldDisableTools` of the business loop. -/
def bizShouldDisable (st : DupSt) (iterations : Nat) : Bool :=
  ("smart_data_query_sms").toList ∈ st.called
    || 2 ≤ st.called.length || 2 ≤ iterations

/-- Result of the real-estate or business `while` loop. -/
inductive DupLoopRes where
  | finished (finalResponse : AgentResponse) (st : DupSt) (iterations : Nat)
      (trace : List TraceEntry) (tick : Nat)
  | terminal (iterations : Nat) (trace : List TraceEntry) (tick : Nat)
  | thrown (iterations : Nat) (trace : List TraceEntry) (tick : Nat)
deriving DecidableEq

/-- Prepend earlier attempts to the trace of a loop result. -/
def DupLoopRes.addTrace (d : List TraceEntry) : DupLoopRes → DupLoopRes
  | .finished r st it tr tk => .finished r st it (d ++ tr) tk
  | .terminal it tr tk => .terminal it (d ++ tr) tk
  | .thrown it tr tk => .thrown it (d ++ tr) tk

/-- The `while (iterations < maxIterations)` loop of
`RealEstateAgent.handleToolCalls`: when an iteration only skipped
duplicates the loop re-enters on the SAME response (there is no
`toolsExecutedThisIteration` guard). -/
def reLoop (toolExec : List Char → Nat → Except Unit ToolResult)
    (env : Nat → Bool → AgentResponse) :
    Nat → Nat → AgentResponse → DupSt → Nat → Nat → DupLoopRes
  | 0, iterations, cur, st, tick, _ => .finished cur st iterations [] tick
  | fuel + 1, iterations, cur, st, tick, k =>
    let it := iterations + 1
    let calls := functionCalls cur
    if calls = [] then .finished cur st it [] tick
    else
      match dupInner toolExec calls st tick with
      | .ranOff st' tick' => reLoop toolExec env fuel it cur st' tick' k
      | .executed st' tick' d =>
        (reLoop toolExec env fuel it (env k (reShouldDisable st' it)) st' tick' (k + 1)).addTrace d
      | .terminal tick' d => .terminal it d tick'
      | .thrown tick' => .thrown it [] tick'

/-- The `while (iterations < maxIterations)` loop of
`BusinessAgent.handleToolCalls`: it breaks when no tool executed in an
iteration. -/
def bizLoop (toolExec : List Char → Nat → Except Unit ToolResult)
    (env : Nat → Bool → AgentResponse) :
    Nat → Nat → AgentResponse → DupSt → Nat → Nat → DupLoopRes
  | 0, iterations, cur, st, tick, _ => .finished cur st iterations [] tick
  | fuel + 1, iterations, cur, st, tick, k =>
    let it := iterations + 1
    let calls := functionCalls cur
    if calls = [] then .finished cur st it [] tick
    else
      match dupInner toolExec calls st tick with
      | .ranOff st' tick' => .finished cur st' it [] tick'
      | .executed st' tick' d =>
        (bizLoop toolExec env fuel it (env k (bizShouldDisable st' it)) st' tick' (k + 1)).addTrace d
      | .terminal tick' d => .terminal it d tick'
      | .thrown tick' => .thrown it [] tick'

/-- Reply of a real-estate or business run; `thrown = true` models the
`JSON.parse` exception propagating to the caller (the content field is
then meaningless and empty). -/
structure DupOut where
  thrown : Bool
  content : List Char
  trace : List TraceEntry
  iterations : Nat
deriving DecidableEq

/-- `RealEstateAgent.handleToolCalls` after the initial model call
produced `initResp`. -/
def realEstateHandleToolCalls (toolExec : List Char → Nat → Except Unit ToolResult)
    (env : Nat → Bool → AgentResponse) (initResp : AgentResponse) : DupOut :=
  match reLoop toolExec env 10 0 initResp ⟨[], none⟩ 0 0 with
  | .finished resp st it tr _ =>
    ⟨false, finalizeRealEstate (extractText resp) st.lastResult, tr, it⟩
  | .terminal it tr _ => ⟨false, reErrorApology, tr, it⟩
  | .thrown it tr _ => ⟨true, [], tr, it⟩

/-- `BusinessAgent.handleToolCalls` after the initial model call
produced `initResp`. -/
def businessHandleToolCalls (toolExec : List Char → Nat → Except Unit ToolResult)
    (env : Nat → Bool → AgentResponse) (initResp : AgentResponse) : DupOut :=
  match bizLoop toolExec env 10 0 initResp ⟨[], none⟩ 0 0 with
  | .finished resp st it tr _ =>
    ⟨false, finalizeBusiness (extractText resp) st.lastResult, tr, it⟩
  | .terminal it tr _ => ⟨false, bizErrorApology, tr, it⟩
  | .thrown it tr _ => ⟨true, [], tr, it⟩

/-! ## Routing (router-agent.js lines 68-114 and processor.js lines 123-145) -/

/-- Inner scan of `RouterAgent.process` over one message item's content
parts: the first part whose `type` is `output_text` with truthy text
(the unconditional inner `break` fires on it). -/
def firstOutputText : List RespPart → Option (List Char)
  | [] => none
  | .outputText t :: rest => if t = [] then firstOutputText rest else some t
  | _ :: rest => firstOutputText rest

/-- Outer scan of `RouterAgent.process` over the output array: assistant
message items in order; a found text is trimmed, and if the trim leaves
nothing the outer loop moves to the next item (`if (finalText) break`). -/
def routerScan : List RespItem → List Char
  | [] => []
  | .message role ps :: rest =>
    if role = ("assistant").toList then
      match firstOutputText ps with
      | some t =>
        let ft := jsTrim t
        if ft = [] then routerScan rest else ft
      | none => routerScan rest
    else routerScan rest
  | _ :: rest => routerScan rest

/-- Content of the `RouterAgent.process` reply: trimmed `output_text`,
else the output-array scan, else the hard default `GENERAL_AGENT`. -/
def routerContent (r : AgentResponse) : List Char :=
  let t := jsTrim r.output_text
  let t := if t = [] then routerScan r.output else t
  if t = [] then ("GENERAL_AGENT").toList else t

/-- The `agentMap` table of `SMSProcessor.process` (processor.js lines
129-142), exactly the nine spellings the source lists. -/
def agentMap : List (List Char × List Char) :=
  [(("BUSINESS_AGENT").toList, ("business").toList),
   (("REAL_ESTATE_AGENT").toList, ("real_estate").toList),
   (("GENERAL_AGENT").toList, ("general").toList),
   (("business_agent").toList, ("business").toList),
   (("real_estate_agent").toList, ("real_estate").toList),
   (("general_agent").toList, ("general").toList),
   (("business").toList, ("business").toList),
   (("real_estate").toList, ("real_estate").toList),
   (("general").toList, ("general").toList)]

/-- JS property lookup `agentMap[specialist]` on the literal object. -/
def assocFind : List (List Char × List Char) → List Char → Option (List Char)
  | [], _ => none
  | (k, v) :: t, s => if k = s then some v else assocFind t s

/-- `const agentKey = agentMap[routeResponse.content.trim()] || 'general'`
(processor.js lines 123 and 144). -/
def selectAgentKey (content : List Char) : List Char :=
  match assocFind agentMap (jsTrim content) with
  | some v => v
  | none => ("general").toList

/-- Modelled from the spec (for comparison with `selectAgentKey`, which
is the code): "The classifier's raw text output is trimmed and
case-normalized, then matched against the enumeration" — the same table
consulted with the trimmed, lower-cased output. -/
def selectAgentKeyCaseNorm (content : List Char) : List Char :=
  match assocFind agentMap (toLowerList (jsTrim content)) with
  | some v => v
  | none => ("general").toList

/-! ## The SMS webhook entry (SMSRoutes.register, the `/sms` handler)

The node-cache instance is modelled as an association of keys to expiry
instants; every value the handler itself stores is the boolean `true`,
so presence of an unexpired key is what `cache.get` reports.  `now` is
`Date.now()`; a stored key is live while `now ≤ expiry` and `set` with a
TTL writes `now + ttl`.  Twilio signature verification (production
only), and the asynchronous `smsProcessor.process` scheduled by
`setImmediate`, are outside the handler's branching modelled here: the
`processed` flag records that the handler reached the scheduling step. -/

abbrev Cache := List (List Char × Nat)

/-- Truthiness of `cache.get(key)` at instant `now`. -/
def cacheGet : Cache → Nat → List Char → Bool
  | [], _, _ => false
  | (k, e) :: t, now, key => if k = key then now ≤ e else cacheGet t now key

/-- `cache.set(key, true, ttl)` at instant `now`. -/
def cacheSet : Cache → Nat → List Char → Nat → Cache
  | [], now, key, ttl => [(key, now + ttl)]
  | (k, e) :: t, now, key, ttl =>
    if k = key then (k, now + ttl) :: t else (k, e) :: cacheSet t now key ttl

/-- `cache.del(key)`. -/
def cacheDel : Cache → List Char → Cache
  | [], _ => []
  | (k, e) :: t, key => if k = key then t else (k, e) :: cacheDel t key

/-- The replies the `/sms` handler can produce. -/
inductive SmsReply where
  | badRequest | dupAck | stopAck | startAck | helpAck | optedOutAck | processedAck
deriving DecidableEq

structure WebhookOut where
  cache : Cache
  reply : SmsReply
  processed : Bool
deriving DecidableEq

/-- The idempotency key: `sms:sid:` then `MessageSid`, or the
sender/body/timestamp fallback when `MessageSid` is falsy. -/
def idemKey (From Body MessageSid : List Char) (now : Nat) : List Char :=
  ("sms:sid:").toList ++
    (if MessageSid = [] then From ++ ':' :: Body ++ ':' :: natChars now
     else MessageSid)

/-- The opt-out key for a normalized sender number. -/
def optOutKey (fromNumber : List Char) : List Char :=
  ("opt_out:").toList ++ fromNumber

/-- The `/sms` webhook handler of `SMSRoutes.register` (its body after
signature verification): field validation, number normalization,
idempotency guard, STOP/START/HELP keywords, opt-out check, then the
asynchronous processing step. -/
def smsWebhook (c : Cache) (now : Nat) (From Body MessageSid : List Char) : WebhookOut :=
  if From = [] ∨ Body = [] then ⟨c, .badRequest, false⟩
  else
    let fromNumber := if leadsWith From ['+'] then From else '+' :: jsTrim From
    let key := idemKey From Body MessageSid now
    if cacheGet c now key then ⟨c, .dupAck, false⟩
    else
      let c1 := cacheSet c now key 600
      let bodyLower := jsTrim (toLowerList Body)
      if bodyLower = ("stop").toList ∨ bodyLower = ("unsubscribe").toList then
        ⟨cacheSet c1 now (optOutKey fromNumber) (86400 * 365), .stopAck, false⟩
      else if bodyLower = ("start").toList ∨ bodyLower = ("subscribe").toList then
        ⟨cacheDel c1 (optOutKey fromNumber), .startAck, false⟩
      else if bodyLower = ("help").toList then ⟨c1, .helpAck, false⟩
      else if cacheGet c1 now (optOutKey fromNumber) then ⟨c1, .optedOutAck, false⟩
      else ⟨c1, .processedAck, true⟩

/-! ## MultiProviderSearch
(`SmartPropertySearch.executeSmartPropertySearch`, smart-property-search.js)

Each provider call is an explicit argument: `Except.error` models a
thrown provider exception and `Except.ok none` a null result; the items
of a result list are abstract.  The LLM parameter optimization of step 1
and the query/address strings handed to the fallback providers shape
only the provider inputs, which the arguments already quantify over. -/

structure AttomRes where
  error : Bool
  property : Option (List Unit)
deriving DecidableEq

structure RentRes where
  error : Bool
deriving DecidableEq

structure WebRes where
  error : Bool
  results : Option (List Unit)
deriving DecidableEq

inductive ProviderTag where
  | attom | rentcast | web
deriving DecidableEq

structure SearchOut where
  success : Bool
  message : List Char
  sourceTag : Option ProviderTag
  tried : List ProviderTag
deriving DecidableEq

/-- `attomResult && !attomResult.error && attomResult.property &&
attomResult.property.length > 0`. -/
def attomOk : Except Unit (Option AttomRes) → Bool
  | .ok (some a) =>
    !a.error && (match a.property with
      | some l => decide (0 < l.length)
      | none => false)
  | _ => false

/-- Number of properties reported on an ATTOM success. -/
def attomCount : Except Unit (Option AttomRes) → Nat
  | .ok (some a) => (a.property.getD []).length
  | _ => 0

/-- `rentcastResult && !rentcastResult.error`. -/
def rentcastOk : Except Unit (Option RentRes) → Bool
  | .ok (some r) => !r.error
  | _ => false

/-- `webResult && !webResult.error && webResult.results.length > 0`
(an absent `results` array throws inside the `try`, which the `catch`
absorbs, so it also falls through). -/
def webOk : Except Unit (Option WebRes) → Bool
  | .ok (some w) =>
    !w.error && (match w.results with
      | some l => decide (0 < l.length)
      | none => false)
  | _ => false

/-- Number of results reported on a web-search success. -/
def webCount : Except Unit (Option WebRes) → Nat
  | .ok (some w) => (w.results.getD []).length
  | _ => 0

/-- `isResidentialQuery(query)` (smart-property-search.js lines
191-199): substring match of a residential vocabulary against the
lower-cased query. -/
def isResidentialQuery (query : List Char) : Bool :=
  [("rent").toList, ("rental").toList, ("apartment").toList, ("condo").toList,
   ("house").toList, ("residential").toList, ("bedroom").toList,
   ("bathroom").toList, ("tenant").toList, ("lease").toList,
   ("monthly").toList].any fun keyword => containsSub (toLowerList query) keyword

/-- Apology of the all-providers-failed return (line 158). -/
def searchFailMsg : List Char :=
  ("Sorry, I could not find information about that property. Please try with a more specific address or check if the address is correct.").toList

/-- Success message of the ATTOM branch. -/
def attomMsg (n : Nat) : List Char :=
  ("Found ").toList ++ natChars n ++ (" properties using ATTOM Data.").toList

/-- Success message of the RentCast branch. -/
def rentcastMsg : List Char :=
  ("Found residential property data using RentCast.").toList

/-- Success message of the web-search branch. -/
def webMsg (n : Nat) : List Char :=
  ("Found ").toList ++ natChars n ++ (" web results about the property.").toList

/-- `executeSmartPropertySearch` (lines 19-160): ATTOM first; on its
no-result-or-error RentCast, but only for a residential query; then the
web search; then the `success: false` apology. -/
def executeSmartPropertySearch (attomCall : Except Unit (Option AttomRes))
    (rentcastCall : Except Unit (Option RentRes))
    (webCall : Except Unit (Option WebRes)) (query : List Char) : SearchOut :=
  if attomOk attomCall then
    ⟨true, attomMsg (attomCount attomCall), some .attom, [.attom]⟩
  else if isResidentialQuery query then
    if rentcastOk rentcastCall then
      ⟨true, rentcastMsg, some .rentcast, [.attom, .rentcast]⟩
    else if webOk webCall then
      ⟨true, webMsg (webCount webCall), some .web, [.attom, .rentcast, .web]⟩
    else ⟨false, searchFailMsg, none, [.attom, .rentcast, .web]⟩
  else if webOk webCall then
    ⟨true, webMsg (webCount webCall), some .web, [.attom, .web]⟩
  else ⟨false, searchFailMsg, none, [.attom, .web]⟩

/-! ## Helper lemmas: chunking -/

theorem dropWhile_len_le (p : Char → Bool) (s : List Char) :
    (s.dropWhile p).length ≤ s.length :=
  (List.dropWhile_suffix p).sublist.length_le

theorem jsTrim_length_le (s : List Char) : (jsTrim s).length ≤ s.length := by
  unfold jsTrim
  calc ((s.dropWhile isJsWs).reverse.dropWhile isJsWs).reverse.length
      = ((s.dropWhile isJsWs).reverse.dropWhile isJsWs).length := List.length_reverse _
    _ ≤ (s.dropWhile isJsWs).reverse.length := dropWhile_len_le _ _
    _ = (s.dropWhile isJsWs).length := List.length_reverse _
    _ ≤ s.length := dropWhile_len_le _ _

theorem lastSpaceIdx_lt_length (s : List Char) (i : Nat)
    (h : lastSpaceIdx s = some i) : i < s.length := by
  induction s generalizing i with
  | nil => simp [lastSpaceIdx] at h
  | cons c t ih =>
    rw [lastSpaceIdx] at h
    cases ht : lastSpaceIdx t with
    | some j =>
      rw [ht] at h
      cases h
      exact Nat.succ_lt_succ (ih j ht)
    | none =>
      rw [ht] at h
      by_cases hc : c == ' '
      · simp [hc] at h
        simp only [List.length_cons]
        omega
      · simp [hc] at h

theorem chunkSplitPoint_le (remaining : List Char) :
    chunkSplitPoint remaining ≤ 300 := by
  unfold chunkSplitPoint
  split
  · split
    · rename_i i hsp
      have hi : i < (remaining.take 300).length := lastSpaceIdx_lt_length _ _ hsp
      have h2 : (remaining.take 300).length ≤ 300 := by
        rw [List.length_take]; exact Nat.min_le_left _ _
      split <;> omega
    · exact Nat.le_refl 300
  · rename_i hlen; omega

theorem chunkLoopCore_length_le (fuel : Nat) (remaining : List Char) :
    ∀ c ∈ chunkLoopCore fuel remaining, c.length ≤ 300 := by
  induction fuel generalizing remaining with
  | zero => simp [chunkLoopCore]
  | succ f ih =>
    intro c hc
    rw [chunkLoopCore] at hc
    split at hc
    · simp at hc
    · rcases List.mem_cons.mp hc with h | h
      · subst h
        calc (jsTrim (remaining.take (chunkSplitPoint remaining))).length
            ≤ (remaining.take (chunkSplitPoint remaining)).length := jsTrim_length_le _
          _ ≤ chunkSplitPoint remaining := by simp [List.length_take]
          _ ≤ 300 := chunkSplitPoint_le remaining
      · exact ih _ c h

theorem chunkContents_length_le (message : List Char) :
    ∀ c ∈ chunkContents message, c.length ≤ 300 := by
  intro c hc
  unfold chunkContents at hc
  split at hc
  · rename_i hle
    simp at hc
    subst hc
    exact hle
  · exact chunkLoopCore_length_le _ _ c hc

theorem addChunkMarkers_getElem (total : Nat) (cs : List (List Char)) :
    ∀ i j, (addChunkMarkers total i cs)[j]? =
      (cs[j]?).map fun c => chunkMarker (i + j) total ++ c := by
  induction cs with
  | nil => intro i j; simp [addChunkMarkers]
  | cons c rest ih =>
    intro i j
    cases j with
    | zero => simp [addChunkMarkers]
    | succ j' =>
      rw [addChunkMarkers]
      simp only [List.getElem?_cons_succ]
      rw [ih (i + 1) j']
      have harith : i + 1 + j' = i + (j' + 1) := by omega
      rw [harith]

/-! ## Claim C2: chunking -/

/-- C2 (amended).  `chunkMessage` keeps every chunk CONTENT (the text
before the part marker) within 300 characters; an input of at most 300
characters round-trips as the single unannotated chunk; and when more
than one chunk is produced, chunk `j` is exactly the `(j+1/n) ` marker
prepended to its content.  The amendments forced by the counterexample:
an annotated chunk may exceed 300 characters by the length of its
marker, and for inputs above the threshold the concatenation of the
stripped chunks drops the whitespace trimmed at chunk boundaries, so it
need not equal the original text. -/
theorem C2_chunking_amended (m : List Char) :
    (∀ c ∈ chunkContents m, c.length ≤ 300)
    ∧ (m.length ≤ 300 → chunkMessage m = [m])
    ∧ (1 < (chunkContents m).length →
        ∀ j c, (chunkContents m)[j]? = some c →
          (chunkMessage m)[j]? =
            some (chunkMarker (j + 1) (chunkContents m).length ++ c)) := by
  refine ⟨chunkContents_length_le m, ?_, ?_⟩
  · intro hle
    unfold chunkMessage chunkContents
    simp [hle]
  · intro hlen j c hj
    unfold chunkMessage
    simp only [if_pos hlen]
    rw [addChunkMarkers_getElem _ _ 1 j, hj]
    simp [Nat.add_comm]

/-- C2 counterexample input: three hundred letters, a space, a letter. -/
def c2Input : List Char := List.replicate 300 'a' ++ (" b").toList

set_option maxRecDepth 40000 in
/-- C2 counterexample.  On `c2Input` the claim fails as stated: the
first returned chunk is 306 characters long (over the 300-character
channel limit), and the concatenation of the chunks stripped of the
part markers is not the original text (the space at the split point is
trimmed away). -/
theorem C2_chunking_cex :
    (∃ ch ∈ chunkMessage c2Input, 300 < ch.length)
    ∧ (chunkContents c2Input).flatten ≠ c2Input := by
  constructor
  · decide
  · decide

set_option maxRecDepth 40000 in
/-- C2 witness: the amended theorem applied at a short input and at
`c2Input`. -/
theorem C2_chunking_witness :
    (("hello world").toList.length ≤ 300
      ∧ chunkMessage (("hello world").toList) = [("hello world").toList])
    ∧ (1 < (chunkContents c2Input).length
      ∧ (chunkMessage c2Input)[0]? = some (chunkMarker 1 2 ++ List.replicate 300 'a')) := by
  constructor
  · exact ⟨by decide, (C2_chunking_amended _).2.1 (by decide)⟩
  · refine ⟨by decide, ?_⟩
    have h := (C2_chunking_amended c2Input).2.2 (by decide) 0 (List.replicate 300 'a')
      (by decide)
    have hl : (chunkContents c2Input).length = 2 := by decide
    rw [hl] at h
    simpa using h

/-! ## Claim C1: finalization of the specialist loops -/

theorem guard_ne_nil (t apology : List Char) (h : apology ≠ []) :
    (if t = [] then apology else t) ≠ [] := by
  split
  · exact h
  · rename_i h2; exact h2

theorem foundDataMsg_ne_nil : foundDataMsg ≠ [] := by decide

theorem baseApology_ne_nil : baseApology ≠ [] := by decide

theorem reNoResponseApology_ne_nil : reNoResponseApology ≠ [] := by decide

theorem reDetailsIntro_ne_nil : reDetailsIntro ≠ [] := by decide

/-- C1 (amended).  Finalization never returns an empty reply in either
the base SubAgent loop or the real-estate loop, and the base loop
behaves exactly as claimed: no text and no tool result gives the
generic apology, a tool result whose message field is non-empty and
under 500 characters is used as the reply, and a message of 500 or more
characters is replaced by the generic "please be more specific"
summary.  The amendment forced by the counterexample: the real-estate
specialist is excluded from the length-ceiling/no-raw-payload scheme —
it uses the message field with no ceiling and, when no message field
exists, appends the raw JSON serialization of the tool result to its
reply. -/
theorem C1_finalization_amended :
    (∀ e last, finalizeBase e last ≠ [])
    ∧ finalizeBase [] none = baseApology
    ∧ (∀ o : ToolObj, o.message ≠ [] → o.message.length < 500 →
        finalizeBase [] (some (.obj o)) = o.message)
    ∧ (∀ o : ToolObj, 500 ≤ o.message.length →
        finalizeBase [] (some (.obj o)) = foundDataMsg)
    ∧ (∀ e last, finalizeRealEstate e last ≠ [])
    ∧ (∀ o : ToolObj, o.message = [] →
        finalizeRealEstate [] (some (.obj o)) = reDetailsIntro ++ o.serialized) := by
  refine ⟨?_, by decide, ?_, ?_, ?_, ?_⟩
  · intro e last
    unfold finalizeBase
    exact guard_ne_nil _ _ baseApology_ne_nil
  · intro o h1 h2
    simp [finalizeBase, h1, h2]
  · intro o h
    have hcond : ¬(o.message ≠ [] ∧ o.message.length < 500) := by
      rintro ⟨_, hlt⟩; omega
    simp [finalizeBase, hcond, foundDataMsg_ne_nil]
  · intro e last
    unfold finalizeRealEstate
    exact guard_ne_nil _ _ reNoResponseApology_ne_nil
  · intro o h
    simp [finalizeRealEstate, h, reDetailsIntro_ne_nil]

/-- Serialized payload used by the C1 counterexample. -/
def c1Serialized : List Char := ("RAW_TOOL_PAYLOAD_0123456789").toList

/-- Message of exactly 500 characters used by the C1 counterexample. -/
def c1LongMsg : List Char := List.replicate 500 'x'

set_option maxRecDepth 4000 in
/-- C1 counterexample.  The real-estate finalization step, with no
extracted text, forwards the raw serialized tool payload verbatim
(appended to a lead-in) when the result has no message field, and uses
a 500-character message field verbatim; in both cases the reply is none
of the generic substitutes the claim mandates. -/
theorem C1_raw_payload_cex :
    finalizeRealEstate [] (some (.obj ⟨[], none, [], [], c1Serialized⟩))
      = reDetailsIntro ++ c1Serialized
    ∧ finalizeRealEstate [] (some (.obj ⟨c1LongMsg, none, [], [], []⟩)) = c1LongMsg
    ∧ reDetailsIntro ++ c1Serialized ≠ foundDataMsg
    ∧ reDetailsIntro ++ c1Serialized ≠ baseApology
    ∧ reDetailsIntro ++ c1Serialized ≠ reNoResponseApology := by
  exact ⟨by decide, by decide, by decide, by decide, by decide⟩

/-- C1 witness: the amended theorem applied to a short message-shaped
tool result of the base loop. -/
theorem C1_finalization_witness :
    ("done").toList ≠ [] ∧ ("done").toList.length < 500
    ∧ finalizeBase [] (some (.obj ⟨("done").toList, none, [], [], []⟩))
        = ("done").toList :=
  ⟨by decide, by decide,
    C1_finalization_amended.2.2.1 ⟨("done").toList, none, [], [], []⟩
      (by decide) (by decide)⟩

/-! ## Claim C7: routing normalization and default -/

/-- C7 (amended).  The classifier output is trimmed — but NOT
case-normalized — and looked up in the `agentMap` table of nine exact
spellings; each listed spelling routes to its specialist, and any other
trimmed output, the empty string included, falls back to the general
specialist.  On the router side an empty extraction defaults to
`GENERAL_AGENT` and the router reply is never empty, so routing never
propagates an error. -/
theorem C7_routing_default_amended :
    (∀ s, assocFind agentMap (jsTrim s) = none →
        selectAgentKey s = ("general").toList)
    ∧ selectAgentKey [] = ("general").toList
    ∧ (∀ kv ∈ agentMap, selectAgentKey kv.1 = kv.2)
    ∧ (∀ r : AgentResponse, routerContent r ≠ [])
    ∧ routerContent ⟨[], []⟩ = ("GENERAL_AGENT").toList := by
  refine ⟨?_, by decide, by decide, ?_, by decide⟩
  · intro s h
    simp [selectAgentKey, h]
  · intro r
    unfold routerContent
    exact guard_ne_nil _ _ (by decide)

/-- C7 counterexample.  The claim says the output is case-normalized
before matching: then the mixed-case output `Business` would route to
the business specialist (as `selectAgentKeyCaseNorm`, written from the
spec words, does).  The code routes it to the general specialist: the
lookup is exact-case over the nine listed spellings. -/
theorem C7_case_normalization_cex :
    selectAgentKey (("Business").toList) = ("general").toList
    ∧ selectAgentKeyCaseNorm (("Business").toList) = ("business").toList
    ∧ selectAgentKey (("Business").toList)
        ≠ selectAgentKeyCaseNorm (("Business").toList) :=
  ⟨by decide, by decide, by decide⟩

/-- C7 witness: the amended theorem applied to an unrecognized
classifier output. -/
theorem C7_routing_default_witness :
    assocFind agentMap (jsTrim (("banana").toList)) = none
    ∧ selectAgentKey (("banana").toList) = ("general").toList :=
  ⟨by decide, C7_routing_default_amended.1 _ (by decide)⟩

/-! ## Claim C8: multi-provider property search -/

theorem searchFailMsg_ne_nil : searchFailMsg ≠ [] := by decide

/-- C8.  The search tries ATTOM first; RentCast is consulted exactly
when ATTOM produced no result or an error and the query carries
residential vocabulary; the web search runs exactly when ATTOM failed
and RentCast was skipped or failed; and when every consulted provider
fails the result is `success: false` with the fixed non-empty apology —
the function is total, so no provider failure escapes to the caller. -/
theorem C8_provider_fallback (a : Except Unit (Option AttomRes))
    (r : Except Unit (Option RentRes)) (w : Except Unit (Option WebRes))
    (q : List Char) :
    ((executeSmartPropertySearch a r w q).tried.head? = some .attom)
    ∧ (ProviderTag.rentcast ∈ (executeSmartPropertySearch a r w q).tried ↔
        attomOk a = false ∧ isResidentialQuery q = true)
    ∧ (ProviderTag.web ∈ (executeSmartPropertySearch a r w q).tried ↔
        attomOk a = false ∧ (isResidentialQuery q = true → rentcastOk r = false))
    ∧ (attomOk a = false → (isResidentialQuery q = true → rentcastOk r = false) →
        webOk w = false →
        (executeSmartPropertySearch a r w q).success = false
        ∧ (executeSmartPropertySearch a r w q).message = searchFailMsg
        ∧ (executeSmartPropertySearch a r w q).message ≠ []) := by
  unfold executeSmartPropertySearch
  cases ha : attomOk a <;> cases hq : isResidentialQuery q <;>
    cases hr : rentcastOk r <;> cases hw : webOk w <;>
      simp [ha, hq, hr, hw, searchFailMsg_ne_nil]

/-- C8 witness: the fallback theorem applied to a run where every
provider throws, on a residential query. -/
theorem C8_provider_fallback_witness :
    attomOk (Except.error ()) = false ∧ rentcastOk (Except.error ()) = false
    ∧ webOk (Except.error ()) = false
    ∧ (executeSmartPropertySearch (Except.error ()) (Except.error ())
        (Except.error ()) (("rental in Chicago").toList)).success = false
    ∧ (executeSmartPropertySearch (Except.error ()) (Except.error ())
        (Except.error ()) (("rental in Chicago").toList)).message = searchFailMsg := by
  have h := (C8_provider_fallback (Except.error ()) (Except.error ())
    (Except.error ()) (("rental in Chicago").toList)).2.2.2
    (by decide) (fun _ => by decide) (by decide)
  exact ⟨by decide, by decide, by decide, h.1, h.2.1⟩

/-! ## Helper lemmas: the cache and the idempotency keys -/

theorem cacheGet_cacheSet_same (c : Cache) (now t : Nat) (k : List Char) (ttl : Nat) :
    cacheGet (cacheSet c now k ttl) t k = decide (t ≤ now + ttl) := by
  induction c with
  | nil => simp [cacheSet, cacheGet]
  | cons kv c ih =>
    obtain ⟨k0, e0⟩ := kv
    by_cases h : k0 = k
    · subst h
      simp [cacheSet, cacheGet]
    · simp [cacheSet, cacheGet, h, ih]

theorem cacheGet_cacheSet_ne (c : Cache) (now t : Nat) (k k' : List Char) (ttl : Nat)
    (h : k' ≠ k) : cacheGet (cacheSet c now k ttl) t k' = cacheGet c t k' := by
  have h' : k ≠ k' := Ne.symm h
  induction c with
  | nil =>
    simp [cacheSet, cacheGet, h']
  | cons kv c ih =>
    obtain ⟨k0, e0⟩ := kv
    by_cases hk : k0 = k
    · subst hk
      simp [cacheSet, cacheGet, h']
    · by_cases hk' : k0 = k'
      · subst hk'
        simp [cacheSet, cacheGet, hk]
      · simp [cacheSet, cacheGet, hk, hk', ih]

theorem charVal_digitChar (d : Nat) (h : d < 10) : charVal (digitChar d) = d := by
  interval_cases d <;> decide

theorem decVal_append_digit (l : List Char) (c : Char) :
    decVal (l ++ [c]) = decVal l * 10 + charVal c := by
  unfold decVal
  rw [List.foldl_append]
  rfl

theorem decVal_natCharsCore (fuel : Nat) :
    ∀ n, n < fuel → decVal (natCharsCore fuel n) = n := by
  induction fuel with
  | zero => intro n h; omega
  | succ f ih =>
    intro n h
    rw [natCharsCore]
    by_cases h10 : n < 10
    · rw [if_pos h10]
      simp [decVal, charVal_digitChar n h10]
    · rw [if_neg h10]
      rw [decVal_append_digit]
      have hdiv : n / 10 < f := by
        have h1 : n / 10 < n := Nat.div_lt_self (by omega) (by omega)
        omega
      rw [ih (n / 10) hdiv, charVal_digitChar (n % 10) (Nat.mod_lt _ (by omega))]
      omega

theorem natChars_injective (a b : Nat) (h : natChars a = natChars b) : a = b := by
  have ha := decVal_natCharsCore (a + 1) a (Nat.lt_succ_self a)
  have hb := decVal_natCharsCore (b + 1) b (Nat.lt_succ_self b)
  unfold natChars at h
  calc a = decVal (natCharsCore (a + 1) a) := ha.symm
    _ = decVal (natCharsCore (b + 1) b) := by rw [h]
    _ = b := hb

theorem idemKey_sid (F B sid : List Char) (t : Nat) (h : sid ≠ []) :
    idemKey F B sid t = ("sms:sid:").toList ++ sid := by
  simp [idemKey, h]

theorem optOutKey_ne_idemKey (x F B sid : List Char) (t : Nat) :
    optOutKey x ≠ idemKey F B sid t := by
  have e1 : optOutKey x = 'o' :: ((("pt_out:").toList) ++ x) := rfl
  have e2 : idemKey F B sid t = 's' :: ((("ms:sid:").toList) ++
      (if sid = [] then F ++ ':' :: B ++ ':' :: natChars t else sid)) := rfl
  rw [e1, e2]
  intro h
  injection h with h1 _
  exact absurd h1 (by decide)

theorem idemKey_noSid_inj (F B : List Char) (t1 t2 : Nat)
    (h : idemKey F B [] t1 = idemKey F B [] t2) : t1 = t2 := by
  simp only [idemKey, if_pos rfl] at h
  have h2 : (F ++ ':' :: B) ++ ':' :: natChars t1
      = (F ++ ':' :: B) ++ ':' :: natChars t2 := List.append_cancel_left h
  have h5 : ':' :: natChars t1 = ':' :: natChars t2 := List.append_cancel_left h2
  injection h5 with _ h6
  exact natChars_injective _ _ h6

/-- A run of the `/sms` handler that reaches the processing step:
fields present, fresh idempotency key, no keyword, no opt-out. -/
theorem smsWebhook_processed (c : Cache) (now : Nat) (From Body sid : List Char)
    (hF : From ≠ []) (hB : Body ≠ [])
    (hfresh : cacheGet c now (idemKey From Body sid now) = false)
    (hstop : jsTrim (toLowerList Body) ≠ ("stop").toList)
    (hunsub : jsTrim (toLowerList Body) ≠ ("unsubscribe").toList)
    (hstart : jsTrim (toLowerList Body) ≠ ("start").toList)
    (hsub : jsTrim (toLowerList Body) ≠ ("subscribe").toList)
    (hhelp : jsTrim (toLowerList Body) ≠ ("help").toList)
    (hopt : cacheGet c now
      (optOutKey (if leadsWith From ['+'] then From else '+' :: jsTrim From)) = false) :
    smsWebhook c now From Body sid =
      ⟨cacheSet c now (idemKey From Body sid now) 600, .processedAck, true⟩ := by
  have hne : optOutKey (if leadsWith From ['+'] then From else '+' :: jsTrim From)
      ≠ idemKey From Body sid now := optOutKey_ne_idemKey _ _ _ _ _
  have hopt2 : cacheGet (cacheSet c now (idemKey From Body sid now) 600) now
      (optOutKey (if leadsWith From ['+'] then From else '+' :: jsTrim From)) = false := by
    rw [cacheGet_cacheSet_ne _ _ _ _ _ _ hne]
    exact hopt
  have hstop' : jsTrim (toLowerList Body) ≠ ['s', 't', 'o', 'p'] := hstop
  have hunsub' : jsTrim (toLowerList Body)
      ≠ ['u', 'n', 's', 'u', 'b', 's', 'c', 'r', 'i', 'b', 'e'] := hunsub
  have hstart' : jsTrim (toLowerList Body) ≠ ['s', 't', 'a', 'r', 't'] := hstart
  have hsub' : jsTrim (toLowerList Body)
      ≠ ['s', 'u', 'b', 's', 'c', 'r', 'i', 'b', 'e'] := hsub
  have hhelp' : jsTrim (toLowerList Body) ≠ ['h', 'e', 'l', 'p'] := hhelp
  simp only [smsWebhook]
  rw [if_neg (show ¬(From = [] ∨ Body = []) from by tauto)]
  simp [hfresh, hopt2, hstop', hunsub', hstart', hsub', hhelp']

/-- A run of the `/sms` handler that hits the idempotency guard. -/
theorem smsWebhook_dup (c : Cache) (now : Nat) (From Body sid : List Char)
    (hF : From ≠ []) (hB : Body ≠ [])
    (hdup : cacheGet c now (idemKey From Body sid now) = true) :
    smsWebhook c now From Body sid = ⟨c, .dupAck, false⟩ := by
  simp only [smsWebhook]
  rw [if_neg (show ¬(From = [] ∨ Body = []) from by tauto)]
  simp [hdup]

/-! ## Claim C4: idempotent redelivery with a MessageSid -/

/-- C4.  Delivering the same webhook twice with the same non-empty
`MessageSid`, the second delivery within the 600-second TTL of the
first: the first run reaches the processing step, the second finds the
identifier claimed in the dedup set, answers with the no-op
acknowledgement, schedules no processing, and leaves the cache
untouched — the processing side effects happen exactly once. -/
theorem C4_idempotent_redelivery (c : Cache) (t1 t2 : Nat)
    (From Body sid : List Char)
    (hFrom : From ≠ []) (hBody : Body ≠ []) (hsid : sid ≠ [])
    (hfresh : cacheGet c t1 (idemKey From Body sid t1) = false)
    (hstop : jsTrim (toLowerList Body) ≠ ("stop").toList)
    (hunsub : jsTrim (toLowerList Body) ≠ ("unsubscribe").toList)
    (hstart : jsTrim (toLowerList Body) ≠ ("start").toList)
    (hsub : jsTrim (toLowerList Body) ≠ ("subscribe").toList)
    (hhelp : jsTrim (toLowerList Body) ≠ ("help").toList)
    (hopt : cacheGet c t1
      (optOutKey (if leadsWith From ['+'] then From else '+' :: jsTrim From)) = false)
    (httl : t2 ≤ t1 + 600) :
    (smsWebhook c t1 From Body sid).processed = true
    ∧ (smsWebhook c t1 From Body sid).reply = .processedAck
    ∧ (smsWebhook (smsWebhook c t1 From Body sid).cache t2 From Body sid).processed = false
    ∧ (smsWebhook (smsWebhook c t1 From Body sid).cache t2 From Body sid).reply = .dupAck
    ∧ (smsWebhook (smsWebhook c t1 From Body sid).cache t2 From Body sid).cache
        = (smsWebhook c t1 From Body sid).cache := by
  have h1 := smsWebhook_processed c t1 From Body sid hFrom hBody hfresh
    hstop hunsub hstart hsub hhelp hopt
  have hkey : idemKey From Body sid t1 = idemKey From Body sid t2 := by
    rw [idemKey_sid _ _ _ _ hsid, idemKey_sid _ _ _ _ hsid]
  have hdup : cacheGet (cacheSet c t1 (idemKey From Body sid t1) 600) t2
      (idemKey From Body sid t2) = true := by
    rw [← hkey, cacheGet_cacheSet_same]
    exact decide_eq_true httl
  have h2 := smsWebhook_dup (cacheSet c t1 (idemKey From Body sid t1) 600) t2
    From Body sid hFrom hBody hdup
  simp [h1, h2]

/-- C4 witness: the theorem applied to a concrete first delivery and
its concrete redelivery 100 time units later. -/
theorem C4_idempotent_redelivery_witness :
    (smsWebhook [] 1000 (("5551234").toList) (("hello there").toList)
      (("SMabc").toList)).processed = true
    ∧ (smsWebhook (smsWebhook [] 1000 (("5551234").toList) (("hello there").toList)
        (("SMabc").toList)).cache 1100 (("5551234").toList) (("hello there").toList)
        (("SMabc").toList)).processed = false :=
  ⟨(C4_idempotent_redelivery [] 1000 1100 (("5551234").toList)
      (("hello there").toList) (("SMabc").toList) (by decide) (by decide) (by decide)
      (by decide) (by decide) (by decide) (by decide) (by decide) (by decide)
      (by decide) (by omega)).1,
   (C4_idempotent_redelivery [] 1000 1100 (("5551234").toList)
      (("hello there").toList) (("SMabc").toList) (by decide) (by decide) (by decide)
      (by decide) (by decide) (by decide) (by decide) (by decide) (by decide)
      (by decide) (by omega)).2.2.1⟩

/-! ## Claim C10: deliveries without a MessageSid -/

/-- C10 (amended).  Without a `MessageSid` the idempotency key is built
from the sender, the body and the current timestamp, so two identical
redeliveries read at DISTINCT timestamps get distinct keys and are both
processed in full.  The amendment forced by the counterexample: the
guard is not dead for such messages — two identical deliveries whose
`Date.now()` readings coincide build the same key, and the second is
then deduplicated. -/
theorem C10_no_sid_dedup_amended (c : Cache) (t1 t2 : Nat) (From Body : List Char)
    (hFrom : From ≠ []) (hBody : Body ≠ []) (hne : t1 ≠ t2)
    (hfresh1 : cacheGet c t1 (idemKey From Body [] t1) = false)
    (hfresh2 : cacheGet c t2 (idemKey From Body [] t2) = false)
    (hstop : jsTrim (toLowerList Body) ≠ ("stop").toList)
    (hunsub : jsTrim (toLowerList Body) ≠ ("unsubscribe").toList)
    (hstart : jsTrim (toLowerList Body) ≠ ("start").toList)
    (hsub : jsTrim (toLowerList Body) ≠ ("subscribe").toList)
    (hhelp : jsTrim (toLowerList Body) ≠ ("help").toList)
    (hopt1 : cacheGet c t1
      (optOutKey (if leadsWith From ['+'] then From else '+' :: jsTrim From)) = false)
    (hopt2 : cacheGet c t2
      (optOutKey (if leadsWith From ['+'] then From else '+' :: jsTrim From)) = false) :
    (smsWebhook c t1 From Body []).processed = true
    ∧ (smsWebhook (smsWebhook c t1 From Body []).cache t2 From Body []).processed
        = true := by
  have h1 := smsWebhook_processed c t1 From Body [] hFrom hBody hfresh1
    hstop hunsub hstart hsub hhelp hopt1
  have hkne : idemKey From Body [] t2 ≠ idemKey From Body [] t1 :=
    fun h => hne (idemKey_noSid_inj _ _ _ _ h).symm
  have hfresh2' : cacheGet (cacheSet c t1 (idemKey From Body [] t1) 600) t2
      (idemKey From Body [] t2) = false := by
    rw [cacheGet_cacheSet_ne _ _ _ _ _ _ hkne]
    exact hfresh2
  have hopt2' : cacheGet (cacheSet c t1 (idemKey From Body [] t1) 600) t2
      (optOutKey (if leadsWith From ['+'] then From else '+' :: jsTrim From)) = false := by
    rw [cacheGet_cacheSet_ne _ _ _ _ _ _ (optOutKey_ne_idemKey _ _ _ _ _)]
    exact hopt2
  have h2 := smsWebhook_processed (cacheSet c t1 (idemKey From Body [] t1) 600) t2
    From Body [] hFrom hBody hfresh2' hstop hunsub hstart hsub hhelp hopt2'
  simp [h1, h2]

/-- C10 counterexample.  Two identical deliveries without a
`MessageSid` whose `Date.now()` readings coincide (both 1000): the
second builds the same key, the duplicate guard fires, and the second
delivery is NOT processed — against the claim that the guard never
fires for such messages. -/
theorem C10_same_timestamp_cex :
    (smsWebhook [] 1000 (("5551234").toList) (("hi").toList) []).processed = true
    ∧ (smsWebhook (smsWebhook [] 1000 (("5551234").toList) (("hi").toList) []).cache
        1000 (("5551234").toList) (("hi").toList) []).processed = false
    ∧ (smsWebhook (smsWebhook [] 1000 (("5551234").toList) (("hi").toList) []).cache
        1000 (("5551234").toList) (("hi").toList) []).reply = .dupAck :=
  ⟨by decide, by decide, by decide⟩

/-- C10 witness: the amended theorem applied to two concrete deliveries
one time unit apart. -/
theorem C10_no_sid_dedup_witness :
    (smsWebhook [] 1000 (("5551234").toList) (("hi").toList) []).processed = true
    ∧ (smsWebhook (smsWebhook [] 1000 (("5551234").toList) (("hi").toList) []).cache
        1001 (("5551234").toList) (("hi").toList) []).processed = true :=
  C10_no_sid_dedup_amended [] 1000 1001 (("5551234").toList) (("hi").toList)
    (by decide) (by decide) (by omega) (by decide) (by decide) (by decide)
    (by decide) (by decide) (by decide) (by decide) (by decide) (by decide)

/-! ## Helper lemmas: loop iteration counts -/

/-- The JS `iterations` counter of a loop result. -/
def DupLoopRes.iters : DupLoopRes → Nat
  | .finished _ _ it _ _ => it
  | .terminal it _ _ => it
  | .thrown it _ _ => it

/-- The trace of a loop result. -/
def DupLoopRes.traceOf : DupLoopRes → List TraceEntry
  | .finished _ _ _ tr _ => tr
  | .terminal _ tr _ => tr
  | .thrown _ tr _ => tr

theorem addTrace_iters (d : List TraceEntry) (r : DupLoopRes) :
    (r.addTrace d).iters = r.iters := by
  cases r <;> rfl

theorem addTrace_traceOf (d : List TraceEntry) (r : DupLoopRes) :
    (r.addTrace d).traceOf = d ++ r.traceOf := by
  cases r <;> rfl

theorem subLoop_iters_le (te : List Char → Nat → Except Unit ToolResult)
    (fb : List Char → Bool) (env : Nat → Bool → AgentResponse) :
    ∀ fuel it cur st tick k,
      (subLoop te fb env fuel it cur st tick k).iterations ≤ it + fuel := by
  intro fuel
  induction fuel with
  | zero => intro it cur st tick k; simp [subLoop]
  | succ f ih =>
    intro it cur st tick k
    simp only [subLoop]
    split
    · simp only []; omega
    · cases hinner : subInner te fb (functionCalls cur) st tick with
      | ranOff st' tick' d => simp only []; omega
      | executed st' tick' d =>
        simp only []
        have h := ih (it + 1) (env k (subShouldDisable st' (it + 1))) st' tick' (k + 1)
        show (subLoop te fb env f (it + 1) (env k (subShouldDisable st' (it + 1)))
          st' tick' (k + 1)).iterations ≤ it + (f + 1)
        omega

theorem reLoop_iters_le (te : List Char → Nat → Except Unit ToolResult)
    (env : Nat → Bool → AgentResponse) :
    ∀ fuel it cur st tick k,
      (reLoop te env fuel it cur st tick k).iters ≤ it + fuel := by
  intro fuel
  induction fuel with
  | zero => intro it cur st tick k; simp [reLoop, DupLoopRes.iters]
  | succ f ih =>
    intro it cur st tick k
    simp only [reLoop]
    split
    · simp only [DupLoopRes.iters]; omega
    · cases hinner : dupInner te (functionCalls cur) st tick with
      | ranOff st' tick' =>
        simp only []
        have h := ih (it + 1) cur st' tick' k
        show (reLoop te env f (it + 1) cur st' tick' k).iters ≤ it + (f + 1)
        omega
      | executed st' tick' d =>
        simp only []
        rw [addTrace_iters]
        have h := ih (it + 1) (env k (reShouldDisable st' (it + 1))) st' tick' (k + 1)
        show (reLoop te env f (it + 1) (env k (reShouldDisable st' (it + 1)))
          st' tick' (k + 1)).iters ≤ it + (f + 1)
        omega
      | terminal tick' d => simp only [DupLoopRes.iters]; omega
      | thrown tick' => simp only [DupLoopRes.iters]; omega

theorem bizLoop_iters_le (te : List Char → Nat → Except Unit ToolResult)
    (env : Nat → Bool → AgentResponse) :
    ∀ fuel it cur st tick k,
      (bizLoop te env fuel it cur st tick k).iters ≤ it + fuel := by
  intro fuel
  induction fuel with
  | zero => intro it cur st tick k; simp [bizLoop, DupLoopRes.iters]
  | succ f ih =>
    intro it cur st tick k
    simp only [bizLoop]
    split
    · simp only [DupLoopRes.iters]; omega
    · cases hinner : dupInner te (functionCalls cur) st tick with
      | ranOff st' tick' => simp only [DupLoopRes.iters]; omega
      | executed st' tick' d =>
        simp only []
        rw [addTrace_iters]
        have h := ih (it + 1) (env k (bizShouldDisable st' (it + 1))) st' tick' (k + 1)
        show (bizLoop te env f (it + 1) (env k (bizShouldDisable st' (it + 1)))
          st' tick' (k + 1)).iters ≤ it + (f + 1)
        omega
      | terminal tick' d => simp only [DupLoopRes.iters]; omega
      | thrown tick' => simp only [DupLoopRes.iters]; omega

/-! ## Claim C3: the 10-iteration hard bound -/

/-- An environment for C3 that requests a FRESH tool name on every
reasoning turn, so the loop would chain tools forever if nothing
stopped it. -/
def c3Req (k : Nat) : AgentResponse :=
  ⟨[], [.functionCall (natChars k) .present]⟩

def c3Env : Nat → Bool → AgentResponse := fun k _ => c3Req (k + 1)

def c3Exec : List Char → Nat → Except Unit ToolResult :=
  fun _ _ => .ok (.str (("fine").toList))

/-- C3.  Whatever the reasoning collaborator answers (every follow-up
response may keep requesting tools), whatever the tools do, the three
specialist loops terminate — they are total functions here — with their
`iterations` counter at most 10; and on the concrete environment that
requests a fresh tool on every turn the base loop stops exactly at 10
iterations and finalizes from the partial tool outcomes it gathered
(the last tool result becomes the reply). -/
theorem C3_iteration_bound (te : List Char → Nat → Except Unit ToolResult)
    (fb : List Char → Bool) (env : Nat → Bool → AgentResponse)
    (initResp : AgentResponse) :
    ((subAgentProcess te fb env initResp).iterations ≤ 10
    ∧ (realEstateHandleToolCalls te env initResp).iterations ≤ 10
    ∧ (businessHandleToolCalls te env initResp).iterations ≤ 10)
    ∧ ((subAgentProcess c3Exec (fun _ => true) c3Env (c3Req 0)).iterations = 10
    ∧ (subAgentProcess c3Exec (fun _ => true) c3Env (c3Req 0)).content
        = ("fine").toList) := by
  refine ⟨⟨?_, ?_, ?_⟩, by decide, by decide⟩
  · have h := subLoop_iters_le te fb env 10 0 initResp ⟨[], [], none⟩ 0 0
    simpa [subAgentProcess] using h
  · have h := reLoop_iters_le te env 10 0 initResp ⟨[], none⟩ 0 0
    unfold realEstateHandleToolCalls
    cases hr : reLoop te env 10 0 initResp ⟨[], none⟩ 0 0 <;>
      rw [hr] at h <;> simpa [DupLoopRes.iters] using h
  · have h := bizLoop_iters_le te env 10 0 initResp ⟨[], none⟩ 0 0
    unfold businessHandleToolCalls
    cases hb : bizLoop te env 10 0 initResp ⟨[], none⟩ 0 0 <;>
      rw [hb] at h <;> simpa [DupLoopRes.iters] using h

/-! ## Helper lemmas: successful-tool memoization

`NoReuse S tr` scans an attempt trace with the running set `S` of names
that already succeeded: every attempted name must be outside the set,
and a success adds its name.  The loops maintain `S` as exactly their
`successfulTools`/`calledTools` set. -/

/-- The success set after scanning a trace. -/
def scanSet : List (List Char) → List TraceEntry → List (List Char)
  | S, [] => S
  | S, e :: tr => scanSet (if e.2 = .success then e.1 :: S else S) tr

/-- No attempt reuses a name that already succeeded. -/
def NoReuse : List (List Char) → List TraceEntry → Prop
  | _, [] => True
  | S, e :: tr => e.1 ∉ S ∧ NoReuse (if e.2 = .success then e.1 :: S else S) tr

theorem noReuse_append (d1 : List TraceEntry) :
    ∀ (S : List (List Char)) (d2 : List TraceEntry),
      NoReuse S (d1 ++ d2) ↔ NoReuse S d1 ∧ NoReuse (scanSet S d1) d2 := by
  induction d1 with
  | nil => intro S d2; simp [NoReuse, scanSet]
  | cons e d1 ih =>
    intro S d2
    simp only [List.cons_append, NoReuse, scanSet, List.append_eq, ih, and_assoc]

theorem noReuse_mem_ne (n : List Char) (tr : List TraceEntry) :
    ∀ S : List (List Char), NoReuse S tr → n ∈ S → ∀ e ∈ tr, e.1 ≠ n := by
  induction tr with
  | nil => simp
  | cons e tr ih =>
    intro S h hn e2 he2
    obtain ⟨h1, h2⟩ := h
    rcases List.mem_cons.mp he2 with rfl | hmem
    · exact fun hEq => h1 (hEq ▸ hn)
    · refine ih _ h2 ?_ e2 hmem
      split
      · exact List.mem_cons_of_mem _ hn
      · exact hn

theorem noReuse_split (n : List Char) (t1 : List TraceEntry) :
    ∀ (S : List (List Char)) (t2 : List TraceEntry),
      NoReuse S (t1 ++ t2) → (n, AttemptRes.success) ∈ t1 →
      ∀ e ∈ t2, e.1 ≠ n := by
  induction t1 with
  | nil => simp
  | cons e t1 ih =>
    intro S t2 h hmem
    obtain ⟨h1, h2⟩ := h
    rcases List.mem_cons.mp hmem with heq | hmem2
    · subst heq
      intro e2 he2
      refine noReuse_mem_ne n (t1 ++ t2) _ h2 ?_ e2 (List.mem_append_right _ he2)
      simp
    · exact ih _ t2 h2 hmem2

/-- Successful executions of the tool `n` recorded in a trace. -/
def succCount (n : List Char) (tr : List TraceEntry) : Nat :=
  tr.countP fun e => decide (e.1 = n) && decide (e.2 = .success)

theorem noReuse_succCount_zero (n : List Char) (tr : List TraceEntry) :
    ∀ S : List (List Char), NoReuse S tr → n ∈ S → succCount n tr = 0 := by
  intro S h hn
  rw [succCount, List.countP_eq_zero]
  intro e he
  have := noReuse_mem_ne n tr S h hn e he
  simp [this]

theorem noReuse_succCount (n : List Char) (tr : List TraceEntry) :
    ∀ S : List (List Char), NoReuse S tr → succCount n tr ≤ 1 := by
  induction tr with
  | nil => intro S _; simp [succCount]
  | cons e tr ih =>
    intro S h
    obtain ⟨h1, h2⟩ := h
    by_cases hp : e.1 = n ∧ e.2 = AttemptRes.success
    · obtain ⟨hp1, hp2⟩ := hp
      have hmem : n ∈ (if e.2 = AttemptRes.success then e.1 :: S else S) := by
        rw [if_pos hp2, hp1]
        exact List.mem_cons_self _ _
      have hz : succCount n tr = 0 := noReuse_succCount_zero n tr _ h2 hmem
      have hpe : (decide (e.1 = n) && decide (e.2 = AttemptRes.success)) = true := by
        simp [hp1, hp2]
      rw [succCount, List.countP_cons, hpe, if_pos rfl]
      rw [succCount] at hz
      omega
    · have hpe : (decide (e.1 = n) && decide (e.2 = AttemptRes.success)) = false := by
        rcases not_and_or.mp hp with h | h <;> simp [h]
      rw [succCount, List.countP_cons, hpe, if_neg Bool.false_ne_true]
      have h3 := ih _ h2
      rw [succCount] at h3
      omega

/-- Projections of an inner-loop outcome. -/
def InnerRes.stOf : InnerRes → LoopSt
  | .ranOff st _ _ => st
  | .executed st _ _ => st

def InnerRes.deltaOf : InnerRes → List TraceEntry
  | .ranOff _ _ d => d
  | .executed _ _ d => d

theorem push_deltaOf (e : TraceEntry) (r : InnerRes) :
    (r.push e).deltaOf = e :: r.deltaOf := by
  cases r <;> rfl

theorem push_stOf (e : TraceEntry) (r : InnerRes) :
    (r.push e).stOf = r.stOf := by
  cases r <;> rfl

/-- Inner-loop invariant of the base loop: the attempts of one pass
avoid the already-successful names, and scanning them transforms the
success set into the updated state's set. -/
theorem subInner_spec (te : List Char → Nat → Except Unit ToolResult)
    (fb : List Char → Bool) (calls : List ToolCall) :
    ∀ (st : LoopSt) (tick : Nat),
      NoReuse st.successful (subInner te fb calls st tick).deltaOf
      ∧ scanSet st.successful (subInner te fb calls st tick).deltaOf
          = (subInner te fb calls st tick).stOf.successful := by
  induction calls with
  | nil =>
    intro st tick
    exact ⟨trivial, rfl⟩
  | cons c rest ih =>
    intro st tick
    simp only [subInner]
    by_cases hmem : c.name ∈ st.successful
    · rw [if_pos hmem]
      exact ih st tick
    · rw [if_neg hmem]
      by_cases hfc : 2 ≤ failedGet st.failed c.name
      · rw [if_pos hfc]
        exact ih st tick
      · rw [if_neg hfc]
        have hB := fun tk => ih ⟨st.successful,
          failedSet st.failed c.name (failedGet st.failed c.name + 1), st.lastResult⟩ tk
        cases hargs : c.args with
        | malformed =>
          rw [push_deltaOf, push_stOf]
          exact ⟨⟨hmem, (hB tick).1⟩, (hB tick).2⟩
        | empty =>
          by_cases hfb : fb c.name
          · rw [if_pos hfb]
            cases hex : te c.name tick with
            | error err =>
              rw [push_deltaOf, push_stOf]
              exact ⟨⟨hmem, (hB (tick + 1)).1⟩, (hB (tick + 1)).2⟩
            | ok r => exact ⟨⟨hmem, trivial⟩, rfl⟩
          · rw [if_neg hfb]
            rw [push_deltaOf, push_stOf]
            exact ⟨⟨hmem, (hB tick).1⟩, (hB tick).2⟩
        | present =>
          cases hex : te c.name tick with
          | error err =>
            rw [push_deltaOf, push_stOf]
            exact ⟨⟨hmem, (hB (tick + 1)).1⟩, (hB (tick + 1)).2⟩
          | ok r => exact ⟨⟨hmem, trivial⟩, rfl⟩

/-- The whole base loop never reattempts a successful name. -/
theorem subLoop_noReuse (te : List Char → Nat → Except Unit ToolResult)
    (fb : List Char → Bool) (env : Nat → Bool → AgentResponse) :
    ∀ fuel it cur st tick k,
      NoReuse st.successful (subLoop te fb env fuel it cur st tick k).trace := by
  intro fuel
  induction fuel with
  | zero => intro it cur st tick k; exact trivial
  | succ f ih =>
    intro it cur st tick k
    simp only [subLoop]
    split
    · exact trivial
    · cases hinner : subInner te fb (functionCalls cur) st tick with
      | ranOff st' tick' d =>
        have h := subInner_spec te fb (functionCalls cur) st tick
        rw [hinner] at h
        exact h.1
      | executed st' tick' d =>
        have h := subInner_spec te fb (functionCalls cur) st tick
        rw [hinner] at h
        show NoReuse st.successful
          (d ++ (subLoop te fb env f (it + 1)
            (env k (subShouldDisable st' (it + 1))) st' tick' (k + 1)).trace)
        rw [noReuse_append]
        refine ⟨h.1, ?_⟩
        have h2 : scanSet st.successful d = st'.successful := h.2
        rw [h2]
        exact ih (it + 1) (env k (subShouldDisable st' (it + 1))) st' tick' (k + 1)

/-- What one pass of the shared real-estate/business `for` body can
produce, relative to the incoming state. -/
def DupInnerSpec (st : DupSt) : DupInnerRes → Prop
  | .ranOff st' _ => st' = st
  | .executed st' _ d => ∃ nm, nm ∉ st.called ∧ d = [(nm, AttemptRes.success)]
      ∧ st'.called = nm :: st.called
  | .terminal _ d => ∃ nm, nm ∉ st.called ∧ d = [(nm, AttemptRes.failExec)]
  | .thrown _ => True

theorem dupInner_spec (te : List Char → Nat → Except Unit ToolResult)
    (calls : List ToolCall) :
    ∀ (st : DupSt) (tick : Nat), DupInnerSpec st (dupInner te calls st tick) := by
  induction calls with
  | nil => intro st tick; exact rfl
  | cons c rest ih =>
    intro st tick
    simp only [dupInner]
    by_cases hm : c.name ∈ st.called
    · rw [if_pos hm]
      exact ih st tick
    · rw [if_neg hm]
      cases hargs : c.args with
      | malformed => exact trivial
      | empty =>
        cases hex : te c.name tick with
        | error err => exact ⟨c.name, hm, rfl⟩
        | ok r => exact ⟨c.name, hm, rfl, rfl⟩
      | present =>
        cases hex : te c.name tick with
        | error err => exact ⟨c.name, hm, rfl⟩
        | ok r => exact ⟨c.name, hm, rfl, rfl⟩

/-- The real-estate loop never reattempts a name in `calledTools`. -/
theorem reLoop_noReuse (te : List Char → Nat → Except Unit ToolResult)
    (env : Nat → Bool → AgentResponse) :
    ∀ fuel it cur st tick k,
      NoReuse st.called (reLoop te env fuel it cur st tick k).traceOf := by
  intro fuel
  induction fuel with
  | zero => intro it cur st tick k; exact trivial
  | succ f ih =>
    intro it cur st tick k
    simp only [reLoop]
    split
    · exact trivial
    · cases hinner : dupInner te (functionCalls cur) st tick with
      | ranOff st' tick' =>
        have hs := dupInner_spec te (functionCalls cur) st tick
        rw [hinner] at hs
        have hs' : st' = st := hs
        subst hs'
        exact ih (it + 1) cur st' tick' k
      | executed st' tick' d =>
        have hs := dupInner_spec te (functionCalls cur) st tick
        rw [hinner] at hs
        obtain ⟨nm, hnm, hd, hcalled⟩ := hs
        subst hd
        rw [addTrace_traceOf]
        show NoReuse st.called ([(nm, AttemptRes.success)] ++ _)
        rw [noReuse_append]
        refine ⟨⟨hnm, trivial⟩, ?_⟩
        show NoReuse (nm :: st.called) _
        rw [← hcalled]
        exact ih (it + 1) (env k (reShouldDisable st' (it + 1))) st' tick' (k + 1)
      | terminal tick' d =>
        have hs := dupInner_spec te (functionCalls cur) st tick
        rw [hinner] at hs
        obtain ⟨nm, hnm, hd⟩ := hs
        subst hd
        exact ⟨hnm, trivial⟩
      | thrown tick' => exact trivial

theorem reHandle_trace (te : List Char → Nat → Except Unit ToolResult)
    (env : Nat → Bool → AgentResponse) (r0 : AgentResponse) :
    (realEstateHandleToolCalls te env r0).trace
      = (reLoop te env 10 0 r0 ⟨[], none⟩ 0 0).traceOf := by
  unfold realEstateHandleToolCalls
  cases hr : reLoop te env 10 0 r0 ⟨[], none⟩ 0 0 <;> rfl

/-! ## Claim C5: successful-tool memoization -/

/-- C5.  In a base SubAgent run and in a real-estate run alike: after a
successful execution of a tool name appears in the attempt trace, no
later attempt in that run carries the same name (the second request is
never executed), and each name has at most one successful execution per
run. -/
theorem C5_duplicate_suppression (te : List Char → Nat → Except Unit ToolResult)
    (fb : List Char → Bool) (env : Nat → Bool → AgentResponse)
    (initResp : AgentResponse) (n : List Char) :
    (∀ t1 t2, (subAgentProcess te fb env initResp).trace = t1 ++ t2 →
        (n, AttemptRes.success) ∈ t1 → ∀ e ∈ t2, e.1 ≠ n)
    ∧ succCount n (subAgentProcess te fb env initResp).trace ≤ 1
    ∧ (∀ t1 t2, (realEstateHandleToolCalls te env initResp).trace = t1 ++ t2 →
        (n, AttemptRes.success) ∈ t1 → ∀ e ∈ t2, e.1 ≠ n)
    ∧ succCount n (realEstateHandleToolCalls te env initResp).trace ≤ 1 := by
  have hbase : NoReuse [] (subAgentProcess te fb env initResp).trace := by
    have h := subLoop_noReuse te fb env 10 0 initResp ⟨[], [], none⟩ 0 0
    simpa [subAgentProcess] using h
  have hre : NoReuse [] (realEstateHandleToolCalls te env initResp).trace := by
    have h := reLoop_noReuse te env 10 0 initResp ⟨[], none⟩ 0 0
    rw [reHandle_trace]
    exact h
  refine ⟨?_, noReuse_succCount _ _ _ hbase, ?_, noReuse_succCount _ _ _ hre⟩
  · intro t1 t2 heq hmem
    exact noReuse_split n t1 [] t2 (heq ▸ hbase) hmem
  · intro t1 t2 heq hmem
    exact noReuse_split n t1 [] t2 (heq ▸ hre) hmem

/-- Concrete run for the C5 witness: the first response requests
`tool_a`, the follow-up requests `tool_a` again plus `tool_b`. -/
def c5Init : AgentResponse := ⟨[], [.functionCall (("tool_a").toList) .present]⟩

def c5Req2 : AgentResponse :=
  ⟨[], [.functionCall (("tool_a").toList) .present,
        .functionCall (("tool_b").toList) .present]⟩

def c5Done : AgentResponse := ⟨("ok").toList, []⟩

def c5Env : Nat → Bool → AgentResponse :=
  fun k _ => if k = 0 then c5Req2 else c5Done

def c5Exec : List Char → Nat → Except Unit ToolResult :=
  fun _ _ => .ok (.str (("fine").toList))

/-- C5 witness: in the concrete run the re-requested `tool_a` is
skipped — the trace holds one success per name — and the theorem
applied at the split after `tool_a`'s success says every later entry
carries another name. -/
theorem C5_duplicate_suppression_witness :
    (subAgentProcess c5Exec (fun _ => true) c5Env c5Init).trace
      = [(("tool_a").toList, AttemptRes.success),
         (("tool_b").toList, AttemptRes.success)]
    ∧ ∀ e ∈ [(("tool_b").toList, AttemptRes.success)], e.1 ≠ ("tool_a").toList :=
  ⟨by decide,
    (C5_duplicate_suppression c5Exec (fun _ => true) c5Env c5Init
      (("tool_a").toList)).1
      [(("tool_a").toList, AttemptRes.success)]
      [(("tool_b").toList, AttemptRes.success)]
      (by decide) (by decide)⟩

/-! ## Helper lemmas: the per-name failure ceiling (base loop) -/

/-- Failed attempts at the tool `n` recorded in a trace. -/
def failCount (n : List Char) (tr : List TraceEntry) : Nat :=
  tr.countP fun e => decide (e.1 = n) && !decide (e.2 = AttemptRes.success)

/-- All attempts at the tool `n` recorded in a trace. -/
def nameCount (n : List Char) (tr : List TraceEntry) : Nat :=
  tr.countP fun e => decide (e.1 = n)

theorem nameCount_split (n : List Char) (tr : List TraceEntry) :
    nameCount n tr = succCount n tr + failCount n tr := by
  induction tr with
  | nil => rfl
  | cons e tr ih =>
    simp only [nameCount, succCount, failCount, List.countP_cons] at *
    by_cases h1 : e.1 = n <;> by_cases h2 : e.2 = AttemptRes.success <;>
      simp [h1, h2] <;> omega

theorem failedGet_failedSet_same (l : List (List Char × Nat)) (n : List Char) (c : Nat) :
    failedGet (failedSet l n c) n = c := by
  induction l with
  | nil => simp [failedSet, failedGet]
  | cons kv t ih =>
    obtain ⟨m, c0⟩ := kv
    by_cases h : m = n
    · subst h
      simp [failedSet, failedGet]
    · simp [failedSet, failedGet, h, ih]

theorem failedGet_failedSet_ne (l : List (List Char × Nat)) (n m : List Char) (c : Nat)
    (h : m ≠ n) : failedGet (failedSet l n c) m = failedGet l m := by
  induction l with
  | nil => simp [failedSet, failedGet, Ne.symm h]
  | cons kv t ih =>
    obtain ⟨m0, c0⟩ := kv
    by_cases h0 : m0 = n
    · subst h0
      simp [failedSet, failedGet, Ne.symm h]
    · by_cases h1 : m0 = m
      · subst h1
        simp [failedSet, failedGet, h0]
      · simp [failedSet, failedGet, h0, h1, ih]

/-- Inner-loop failure accounting of the base loop: the failure counter
of each name grows by exactly the failed attempts recorded for it. -/
theorem subInner_failed_spec (te : List Char → Nat → Except Unit ToolResult)
    (fb : List Char → Bool) (calls : List ToolCall) :
    ∀ (st : LoopSt) (tick : Nat) (n : List Char),
      failedGet (subInner te fb calls st tick).stOf.failed n
        = failedGet st.failed n + failCount n (subInner te fb calls st tick).deltaOf := by
  induction calls with
  | nil => intro st tick n; simp [subInner, InnerRes.stOf, InnerRes.deltaOf, failCount]
  | cons c rest ih =>
    intro st tick n
    simp only [subInner]
    by_cases hmem : c.name ∈ st.successful
    · rw [if_pos hmem]
      exact ih st tick n
    · rw [if_neg hmem]
      by_cases hfc : 2 ≤ failedGet st.failed c.name
      · rw [if_pos hfc]
        exact ih st tick n
      · rw [if_neg hfc]
        have hstep : ∀ (tk : Nat) (a : AttemptRes), a ≠ AttemptRes.success →
            failedGet ((subInner te fb rest
                ⟨st.successful, failedSet st.failed c.name (failedGet st.failed c.name + 1),
                  st.lastResult⟩ tk).push (c.name, a)).stOf.failed n
              = failedGet st.failed n
                + failCount n ((subInner te fb rest
                    ⟨st.successful, failedSet st.failed c.name
                      (failedGet st.failed c.name + 1), st.lastResult⟩ tk).push
                    (c.name, a)).deltaOf := by
          intro tk a ha
          rw [push_stOf, push_deltaOf]
          rw [ih _ tk n]
          by_cases hn : n = c.name
          · subst hn
            rw [show (⟨st.successful, failedSet st.failed c.name
                (failedGet st.failed c.name + 1), st.lastResult⟩ : LoopSt).failed
              = failedSet st.failed c.name (failedGet st.failed c.name + 1) from rfl]
            rw [failedGet_failedSet_same]
            generalize (subInner te fb rest
              ⟨st.successful, failedSet st.failed c.name (failedGet st.failed c.name + 1),
                st.lastResult⟩ tk).deltaOf = d
            have hone : failCount c.name ((c.name, a) :: d) = failCount c.name d + 1 := by
              simp [failCount, List.countP_cons, ha]
            rw [hone]
            omega
          · rw [show (⟨st.successful, failedSet st.failed c.name
                (failedGet st.failed c.name + 1), st.lastResult⟩ : LoopSt).failed
              = failedSet st.failed c.name (failedGet st.failed c.name + 1) from rfl]
            rw [failedGet_failedSet_ne _ _ _ _ hn]
            generalize (subInner te fb rest
              ⟨st.successful, failedSet st.failed c.name (failedGet st.failed c.name + 1),
                st.lastResult⟩ tk).deltaOf = d
            have hz : failCount n ((c.name, a) :: d) = failCount n d := by
              simp [failCount, List.countP_cons, Ne.symm hn]
            rw [hz]
        cases hargs : c.args with
        | malformed => exact hstep tick AttemptRes.failParse (by decide)
        | empty =>
          by_cases hfb : fb c.name
          · rw [if_pos hfb]
            cases hex : te c.name tick with
            | error err => exact hstep (tick + 1) AttemptRes.failExec (by decide)
            | ok r => simp [InnerRes.stOf, InnerRes.deltaOf, failCount, List.countP_cons]
          · rw [if_neg hfb]
            exact hstep tick AttemptRes.failEmpty (by decide)
        | present =>
          cases hex : te c.name tick with
          | error err => exact hstep (tick + 1) AttemptRes.failExec (by decide)
          | ok r => simp [InnerRes.stOf, InnerRes.deltaOf, failCount, List.countP_cons]

/-- Inner-loop preservation of the failure ceiling. -/
theorem subInner_failed_le (te : List Char → Nat → Except Unit ToolResult)
    (fb : List Char → Bool) (calls : List ToolCall) :
    ∀ (st : LoopSt) (tick : Nat), (∀ n, failedGet st.failed n ≤ 2) →
      ∀ n, failedGet (subInner te fb calls st tick).stOf.failed n ≤ 2 := by
  induction calls with
  | nil => intro st tick h n; exact h n
  | cons c rest ih =>
    intro st tick h n
    simp only [subInner]
    by_cases hmem : c.name ∈ st.successful
    · rw [if_pos hmem]
      exact ih st tick h n
    · rw [if_neg hmem]
      by_cases hfc : 2 ≤ failedGet st.failed c.name
      · rw [if_pos hfc]
        exact ih st tick h n
      · rw [if_neg hfc]
        have hB : ∀ m, failedGet (⟨st.successful,
            failedSet st.failed c.name (failedGet st.failed c.name + 1),
            st.lastResult⟩ : LoopSt).failed m ≤ 2 := by
          intro m
          by_cases hm : m = c.name
          · subst hm
            show failedGet (failedSet st.failed c.name
              (failedGet st.failed c.name + 1)) c.name ≤ 2
            rw [failedGet_failedSet_same]
            omega
          · show failedGet (failedSet st.failed c.name
              (failedGet st.failed c.name + 1)) m ≤ 2
            rw [failedGet_failedSet_ne _ _ _ _ hm]
            exact h m
        cases hargs : c.args with
        | malformed =>
          rw [push_stOf]
          exact ih _ tick hB n
        | empty =>
          by_cases hfb : fb c.name
          · rw [if_pos hfb]
            cases hex : te c.name tick with
            | error err =>
              rw [push_stOf]
              exact ih _ (tick + 1) hB n
            | ok r => exact h n
          · rw [if_neg hfb]
            rw [push_stOf]
            exact ih _ tick hB n
        | present =>
          cases hex : te c.name tick with
          | error err =>
            rw [push_stOf]
            exact ih _ (tick + 1) hB n
          | ok r => exact h n

/-- Whole-loop failure accounting of the base loop. -/
theorem subLoop_failed_spec (te : List Char → Nat → Except Unit ToolResult)
    (fb : List Char → Bool) (env : Nat → Bool → AgentResponse) :
    ∀ fuel it cur st tick k n,
      failedGet (subLoop te fb env fuel it cur st tick k).st.failed n
        = failedGet st.failed n
          + failCount n (subLoop te fb env fuel it cur st tick k).trace := by
  intro fuel
  induction fuel with
  | zero => intro it cur st tick k n; simp [subLoop, failCount]
  | succ f ih =>
    intro it cur st tick k n
    simp only [subLoop]
    split
    · simp [failCount]
    · cases hinner : subInner te fb (functionCalls cur) st tick with
      | ranOff st' tick' d =>
        have h := subInner_failed_spec te fb (functionCalls cur) st tick n
        rw [hinner] at h
        exact h
      | executed st' tick' d =>
        have h := subInner_failed_spec te fb (functionCalls cur) st tick n
        rw [hinner] at h
        have h2 := ih (it + 1) (env k (subShouldDisable st' (it + 1))) st' tick' (k + 1) n
        show failedGet (subLoop te fb env f (it + 1)
            (env k (subShouldDisable st' (it + 1))) st' tick' (k + 1)).st.failed n
          = failedGet st.failed n
            + failCount n (d ++ (subLoop te fb env f (it + 1)
                (env k (subShouldDisable st' (it + 1))) st' tick' (k + 1)).trace)
        rw [failCount, List.countP_append]
        rw [failCount] at h2
        have h3 : failedGet st'.failed n
            = failedGet st.failed n + failCount n d := h
        rw [failCount] at h3
        omega

/-- Whole-loop preservation of the failure ceiling. -/
theorem subLoop_failed_le (te : List Char → Nat → Except Unit ToolResult)
    (fb : List Char → Bool) (env : Nat → Bool → AgentResponse) :
    ∀ fuel it cur st tick k, (∀ n, failedGet st.failed n ≤ 2) →
      ∀ n, failedGet (subLoop te fb env fuel it cur st tick k).st.failed n ≤ 2 := by
  intro fuel
  induction fuel with
  | zero => intro it cur st tick k h n; exact h n
  | succ f ih =>
    intro it cur st tick k h n
    simp only [subLoop]
    split
    · exact h n
    · cases hinner : subInner te fb (functionCalls cur) st tick with
      | ranOff st' tick' d =>
        have hi := subInner_failed_le te fb (functionCalls cur) st tick h
        rw [hinner] at hi
        exact hi n
      | executed st' tick' d =>
        have hi := subInner_failed_le te fb (functionCalls cur) st tick h
        rw [hinner] at hi
        show failedGet (subLoop te fb env f (it + 1)
            (env k (subShouldDisable st' (it + 1))) st' tick' (k + 1)).st.failed n ≤ 2
        exact ih (it + 1) (env k (subShouldDisable st' (it + 1))) st' tick' (k + 1) hi n

/-! ## Claim C6: the 2-failure ceiling per tool name -/

/-- C6.  In every base SubAgent run, each tool name accumulates at most
2 failed attempts (thrown executions, unparseable arguments, and empty
arguments without fallback all count), and a tool that never succeeds
is attempted at most 2 times in total: once its failure count reaches
2, every further invocation of that name is skipped. -/
theorem C6_failure_ceiling (te : List Char → Nat → Except Unit ToolResult)
    (fb : List Char → Bool) (env : Nat → Bool → AgentResponse)
    (r0 : AgentResponse) (n : List Char) :
    failCount n (subAgentProcess te fb env r0).trace ≤ 2
    ∧ ((n, AttemptRes.success) ∉ (subAgentProcess te fb env r0).trace →
        nameCount n (subAgentProcess te fb env r0).trace ≤ 2) := by
  have hspec := subLoop_failed_spec te fb env 10 0 r0 ⟨[], [], none⟩ 0 0 n
  have hle := subLoop_failed_le te fb env 10 0 r0 ⟨[], [], none⟩ 0 0
    (fun m => by show failedGet [] m ≤ 2; simp [failedGet]) n
  have h0 : failedGet (⟨[], [], none⟩ : LoopSt).failed n = 0 := rfl
  rw [h0] at hspec
  have htr : (subAgentProcess te fb env r0).trace
      = (subLoop te fb env 10 0 r0 ⟨[], [], none⟩ 0 0).trace := rfl
  have h1 : failCount n (subAgentProcess te fb env r0).trace ≤ 2 := by
    rw [htr]
    omega
  refine ⟨h1, ?_⟩
  intro hns
  have hz : succCount n (subAgentProcess te fb env r0).trace = 0 := by
    rw [succCount, List.countP_eq_zero]
    intro e he
    obtain ⟨e1, e2⟩ := e
    simp only [Bool.and_eq_true, decide_eq_true_eq]
    rintro ⟨he1, he2⟩
    subst he1
    subst he2
    exact hns he
  have hsum := nameCount_split n (subAgentProcess te fb env r0).trace
  omega

/-- Concrete run for the C6 witness: one response requesting the same
always-throwing tool twice. -/
def c6Init : AgentResponse :=
  ⟨[], [.functionCall (("tool_a").toList) .present,
        .functionCall (("tool_a").toList) .present]⟩

def c6Exec : List Char → Nat → Except Unit ToolResult := fun _ _ => .error ()

/-- C6 witness: the always-throwing tool is attempted exactly twice in
the concrete run, and the theorem bounds its total attempts. -/
theorem C6_failure_ceiling_witness :
    (subAgentProcess c6Exec (fun _ => true) (fun _ _ => c5Done) c6Init).trace
      = [(("tool_a").toList, AttemptRes.failExec),
         (("tool_a").toList, AttemptRes.failExec)]
    ∧ nameCount (("tool_a").toList)
        (subAgentProcess c6Exec (fun _ => true) (fun _ _ => c5Done) c6Init).trace ≤ 2 :=
  ⟨by decide,
    (C6_failure_ceiling c6Exec (fun _ => true) (fun _ _ => c5Done) c6Init
      (("tool_a").toList)).2 (by decide)⟩

/-! ## Helper lemmas: terminal exception policy of the real-estate and
business loops -/

/-- Shape of a loop result's trace under the terminal-on-exception
policy: a run that finishes or throws has only successes in its trace;
a terminal run's trace is successes followed by the one thrown
execution that ended it. -/
def TermShape : DupLoopRes → Prop
  | .finished _ _ _ tr _ => ∀ e ∈ tr, e.2 = AttemptRes.success
  | .terminal _ tr _ => ∃ pre nm, tr = pre ++ [(nm, AttemptRes.failExec)]
      ∧ ∀ e ∈ pre, e.2 = AttemptRes.success
  | .thrown _ tr _ => ∀ e ∈ tr, e.2 = AttemptRes.success

theorem termShape_addTrace (d : List TraceEntry)
    (hd : ∀ e ∈ d, e.2 = AttemptRes.success) (r : DupLoopRes) (h : TermShape r) :
    TermShape (r.addTrace d) := by
  cases r with
  | finished resp st it tr tk =>
    intro e he
    rcases List.mem_append.mp he with h1 | h2
    · exact hd e h1
    · exact h e h2
  | terminal it tr tk =>
    obtain ⟨pre, nm, htr, hpre⟩ := h
    refine ⟨d ++ pre, nm, ?_, ?_⟩
    · show d ++ tr = (d ++ pre) ++ [(nm, AttemptRes.failExec)]
      rw [htr, List.append_assoc]
    · intro e he
      rcases List.mem_append.mp he with h1 | h2
      · exact hd e h1
      · exact hpre e h2
  | thrown it tr tk =>
    intro e he
    rcases List.mem_append.mp he with h1 | h2
    · exact hd e h1
    · exact h e h2

theorem reLoop_termShape (te : List Char → Nat → Except Unit ToolResult)
    (env : Nat → Bool → AgentResponse) :
    ∀ fuel it cur st tick k, TermShape (reLoop te env fuel it cur st tick k) := by
  intro fuel
  induction fuel with
  | zero => intro it cur st tick k; intro e he; simp at he
  | succ f ih =>
    intro it cur st tick k
    simp only [reLoop]
    split
    · intro e he; simp at he
    · cases hinner : dupInner te (functionCalls cur) st tick with
      | ranOff st' tick' => exact ih (it + 1) cur st' tick' k
      | executed st' tick' d =>
        have hs := dupInner_spec te (functionCalls cur) st tick
        rw [hinner] at hs
        obtain ⟨nm, hnm, hd, hcalled⟩ := hs
        subst hd
        refine termShape_addTrace _ ?_ _
          (ih (it + 1) (env k (reShouldDisable st' (it + 1))) st' tick' (k + 1))
        intro e he
        simp at he
        rw [he]
      | terminal tick' d =>
        have hs := dupInner_spec te (functionCalls cur) st tick
        rw [hinner] at hs
        obtain ⟨nm, hnm, hd⟩ := hs
        subst hd
        exact ⟨[], nm, rfl, by intro e he; simp at he⟩
      | thrown tick' => intro e he; simp at he

theorem bizLoop_termShape (te : List Char → Nat → Except Unit ToolResult)
    (env : Nat → Bool → AgentResponse) :
    ∀ fuel it cur st tick k, TermShape (bizLoop te env fuel it cur st tick k) := by
  intro fuel
  induction fuel with
  | zero => intro it cur st tick k; intro e he; simp at he
  | succ f ih =>
    intro it cur st tick k
    simp only [bizLoop]
    split
    · intro e he; simp at he
    · cases hinner : dupInner te (functionCalls cur) st tick with
      | ranOff st' tick' => intro e he; simp at he
      | executed st' tick' d =>
        have hs := dupInner_spec te (functionCalls cur) st tick
        rw [hinner] at hs
        obtain ⟨nm, hnm, hd, hcalled⟩ := hs
        subst hd
        refine termShape_addTrace _ ?_ _
          (ih (it + 1) (env k (bizShouldDisable st' (it + 1))) st' tick' (k + 1))
        intro e he
        simp at he
        rw [he]
      | terminal tick' d =>
        have hs := dupInner_spec te (functionCalls cur) st tick
        rw [hinner] at hs
        obtain ⟨nm, hnm, hd⟩ := hs
        subst hd
        exact ⟨[], nm, rfl, by intro e he; simp at he⟩
      | thrown tick' => intro e he; simp at he

/-- The real-estate reply: either every recorded attempt succeeded, or
the run ended in the terminal apology with the thrown execution last. -/
theorem reHandle_policy (te : List Char → Nat → Except Unit ToolResult)
    (env : Nat → Bool → AgentResponse) (r0 : AgentResponse) :
    (∀ e ∈ (realEstateHandleToolCalls te env r0).trace, e.2 = AttemptRes.success)
    ∨ ((realEstateHandleToolCalls te env r0).content = reErrorApology
        ∧ ∃ pre nm, (realEstateHandleToolCalls te env r0).trace
            = pre ++ [(nm, AttemptRes.failExec)]
          ∧ ∀ e ∈ pre, e.2 = AttemptRes.success) := by
  have hshape := reLoop_termShape te env 10 0 r0 ⟨[], none⟩ 0 0
  unfold realEstateHandleToolCalls
  cases hr : reLoop te env 10 0 r0 ⟨[], none⟩ 0 0 with
  | finished resp st it tr tk =>
    rw [hr] at hshape
    exact Or.inl hshape
  | terminal it tr tk =>
    rw [hr] at hshape
    obtain ⟨pre, nm, htr, hpre⟩ := hshape
    exact Or.inr ⟨rfl, pre, nm, htr, hpre⟩
  | thrown it tr tk =>
    rw [hr] at hshape
    exact Or.inl hshape

/-- Business-loop analogue of `reHandle_policy`. -/
theorem bizHandle_policy (te : List Char → Nat → Except Unit ToolResult)
    (env : Nat → Bool → AgentResponse) (r0 : AgentResponse) :
    (∀ e ∈ (businessHandleToolCalls te env r0).trace, e.2 = AttemptRes.success)
    ∨ ((businessHandleToolCalls te env r0).content = bizErrorApology
        ∧ ∃ pre nm, (businessHandleToolCalls te env r0).trace
            = pre ++ [(nm, AttemptRes.failExec)]
          ∧ ∀ e ∈ pre, e.2 = AttemptRes.success) := by
  have hshape := bizLoop_termShape te env 10 0 r0 ⟨[], none⟩ 0 0
  unfold businessHandleToolCalls
  cases hr : bizLoop te env 10 0 r0 ⟨[], none⟩ 0 0 with
  | finished resp st it tr tk =>
    rw [hr] at hshape
    exact Or.inl hshape
  | terminal it tr tk =>
    rw [hr] at hshape
    obtain ⟨pre, nm, htr, hpre⟩ := hshape
    exact Or.inr ⟨rfl, pre, nm, htr, hpre⟩
  | thrown it tr tk =>
    rw [hr] at hshape
    exact Or.inl hshape

/-- From the policy disjunction to the claim-facing statement. -/
theorem dupOut_terminal_of_failExec (o : DupOut) (apology : List Char)
    (h : (∀ e ∈ o.trace, e.2 = AttemptRes.success)
      ∨ (o.content = apology ∧ ∃ pre nm, o.trace = pre ++ [(nm, AttemptRes.failExec)]
          ∧ ∀ e ∈ pre, e.2 = AttemptRes.success)) :
    (∃ e ∈ o.trace, e.2 = AttemptRes.failExec) →
      o.content = apology
      ∧ (∃ nm, o.trace.getLast? = some (nm, AttemptRes.failExec))
      ∧ ∀ e ∈ o.trace.dropLast, e.2 = AttemptRes.success := by
  rintro ⟨e, he, hfe⟩
  rcases h with hall | ⟨hc, pre, nm, htr, hpre⟩
  · have := hall e he
    rw [hfe] at this
    exact absurd this (by decide)
  · refine ⟨hc, ⟨nm, ?_⟩, ?_⟩
    · rw [htr]
      exact List.getLast?_concat _
    · rw [htr, List.dropLast_concat]
      exact hpre

/-! ## Claim C9: asymmetric tool-exception policy -/

/-- Concrete base-loop run for C9: the first tool execution throws, the
second succeeds. -/
def c9Init : AgentResponse :=
  ⟨[], [.functionCall (("tool_a").toList) .present,
        .functionCall (("tool_b").toList) .present]⟩

def c9Exec : List Char → Nat → Except Unit ToolResult :=
  fun _ t => if t = 0 then .error () else .ok (.str (("fine").toList))

/-- C9.  In the real-estate and business loops a thrown tool execution
is terminal: whenever the trace of a run holds a thrown execution, the
reply is the fixed error apology, the thrown execution is the LAST
attempt of the run, and every attempt before it succeeded.  In the base
SubAgent loop a thrown execution is not fatal: the concrete run whose
first execution throws goes on to execute the next tool, finishes its
trace with that success, and replies from the final response instead of
an error apology. -/
theorem C9_exception_policy (te : List Char → Nat → Except Unit ToolResult)
    (env : Nat → Bool → AgentResponse) (r0 : AgentResponse) :
    ((∃ e ∈ (realEstateHandleToolCalls te env r0).trace, e.2 = AttemptRes.failExec) →
      (realEstateHandleToolCalls te env r0).content = reErrorApology
      ∧ (∃ nm, (realEstateHandleToolCalls te env r0).trace.getLast?
          = some (nm, AttemptRes.failExec))
      ∧ ∀ e ∈ (realEstateHandleToolCalls te env r0).trace.dropLast,
          e.2 = AttemptRes.success)
    ∧ ((∃ e ∈ (businessHandleToolCalls te env r0).trace, e.2 = AttemptRes.failExec) →
      (businessHandleToolCalls te env r0).content = bizErrorApology
      ∧ (∃ nm, (businessHandleToolCalls te env r0).trace.getLast?
          = some (nm, AttemptRes.failExec))
      ∧ ∀ e ∈ (businessHandleToolCalls te env r0).trace.dropLast,
          e.2 = AttemptRes.success)
    ∧ (subAgentProcess c9Exec (fun _ => true) (fun _ _ => c5Done) c9Init).trace
        = [(("tool_a").toList, AttemptRes.failExec),
           (("tool_b").toList, AttemptRes.success)]
    ∧ (subAgentProcess c9Exec (fun _ => true) (fun _ _ => c5Done) c9Init).content
        = ("ok").toList :=
  ⟨dupOut_terminal_of_failExec _ _ (reHandle_policy te env r0),
   dupOut_terminal_of_failExec _ _ (bizHandle_policy te env r0),
   by decide, by decide⟩

/-- A tool executor that always throws, for the C9 witness. -/
def c9wExec : List Char → Nat → Except Unit ToolResult := fun _ _ => .error ()

/-- C9 witness: the theorem applied to a real-estate run whose only
tool execution throws. -/
theorem C9_exception_policy_witness :
    (∃ e ∈ (realEstateHandleToolCalls c9wExec (fun _ _ => c5Done) c5Init).trace,
        e.2 = AttemptRes.failExec)
    ∧ (realEstateHandleToolCalls c9wExec (fun _ _ => c5Done) c5Init).content
        = reErrorApology :=
  ⟨by decide,
    ((C9_exception_policy c9wExec (fun _ _ => c5Done) c5Init).1 (by decide)).1⟩

end OVA
